import Mathlib

/-!
Verification development for the codebase-analyzer multi-layer analysis
pipeline: a shallow embedding, in Lean 4, of the surface scanner
(`identifyModules`, `calculateComplexity`), the structural extractor
(`analyzeFileWithRegex`, `analyzeModulesStructurally`), the disclosure
builder (`buildSummary`, `buildExpandableSections`, `expandSection`,
`buildAnalysisResult`), the result cache (`AnalysisCache`) and the
orchestrator (`orchestrateAnalysis`, `expandAnalysisSection`), together
with theorems settling the specification claims about them.

Modelling conventions:
- TypeScript string operations are embedded as structurally recursive
  functions over `List Char` (the kernel cannot evaluate the iterator
  based `String` library functions), converting at the boundaries with
  `String.mk` / `String.toList`.
- JavaScript number arithmetic (with `NaN` and the infinities, which the
  surface complexity score can actually produce) is embedded as the type
  `JSNum` below, whose finite values are exact unnormalized fractions;
  the float rounding of JavaScript doubles is not modelled, which is
  exact on every value appearing in this development.
- Effectful collaborators (filesystem enumeration, the Gemini call) enter
  as explicit arguments holding their outcome, and `try`/`catch` blocks
  become `Except` values, so that failure scenarios are expressible.
- Fields of the source records that no claim mentions and that would
  require modelling `JSON.stringify` or wall-clock time (`timestamp`,
  `durationMs`, `tokenCost`, `expansionCost`, the `forAgent` digest) are
  omitted from the embedded records; a comment at each record lists the
  omission.
-/

/-! ## Character and string helpers (embedding JS string primitives) -/

/-- Embeds the JS test `\w` (word character): letters, digits, underscore.
The source contents in this development are ASCII, where `Char.isAlphanum`
agrees with the JS character classes. -/
def isWordChar (c : Char) : Bool :=
  c.isAlphanum || c = '_'

/-- Embeds the JS test `\s` (whitespace) restricted to the whitespace
characters that occur in source files: space, tab, newline, carriage
return. -/
def isSpaceChar (c : Char) : Bool :=
  c = ' ' || c = '\t' || c = '\n' || c = '\r'

/-- Embeds `String.prototype.toLowerCase` (ASCII range). -/
def strToLower (s : String) : String :=
  String.mk (s.toList.map Char.toLower)

/-- Embeds `String.prototype.toUpperCase` (ASCII range). -/
def strToUpper (s : String) : String :=
  String.mk (s.toList.map Char.toUpper)

/-- Embeds `String.prototype.startsWith`. -/
def strStartsWith (s pat : String) : Bool :=
  pat.toList.isPrefixOf s.toList

/-- Helper for `strSplitChar`: splits a character list at a separator. -/
def splitCharAux (sep : Char) : List Char → List Char → List String
  | [], acc => [String.mk acc.reverse]
  | c :: rest, acc =>
    if c = sep then String.mk acc.reverse :: splitCharAux sep rest []
    else splitCharAux sep rest (c :: acc)

/-- Embeds `String.prototype.split` with a single-character separator
(as in the source `relativePath.split("/")`): the empty string splits to
`[""]`, like in JS. -/
def strSplitChar (s : String) (sep : Char) : List String :=
  splitCharAux sep s.toList []

/-- Occurrence test for a character list inside another (used to embed
unanchored JS regex literals such as `/utils\//`). -/
def listContainsSub (sub : List Char) : List Char → Bool
  | [] => sub.isEmpty
  | c :: rest => sub.isPrefixOf (c :: rest) || listContainsSub sub rest

/-- Embeds `String.prototype.includes`. -/
def strContains (s sub : String) : Bool :=
  listContainsSub sub.toList s.toList

/-- Helper for `replaceFirstOcc`, on character lists: replaces the first
occurrence of `pat` by `rep`, scanning left to right. -/
def replaceFirstList (pat rep : List Char) : List Char → List Char
  | [] => if pat.isPrefixOf ([] : List Char) then rep else []
  | c :: rest =>
    if pat.isPrefixOf (c :: rest) then rep ++ (c :: rest).drop pat.length
    else c :: replaceFirstList pat rep rest

/-- Embeds `String.prototype.replace` with a plain string pattern, which
in JS replaces only the first occurrence (used by `expandSection` as
`section.id.replace("module_", "")`). -/
def replaceFirstOcc (s pat rep : String) : String :=
  String.mk (replaceFirstList pat.toList rep.toList s.toList)

/-- Stable insertion into a sorted list: `x` is placed before the first
element `y` with `le x y`, so that elements comparing equal keep their
original relative order, as JS `Array.prototype.sort` (stable) does. -/
def insertSorted (le : α → α → Bool) (x : α) : List α → List α
  | [] => [x]
  | y :: ys => if le x y then x :: y :: ys else y :: insertSorted le x ys

/-- Stable sort by a total boolean `le`, embedding the stable JS
`Array.prototype.sort` with comparator `c` via `le a b ↔ c(a, b) ≤ 0`. -/
def stableSortBy (le : α → α → Bool) : List α → List α
  | [] => []
  | x :: xs => insertSorted le x (stableSortBy le xs)

/-- Association-list lookup, embedding `Map.prototype.get` over a map
carried as an insertion-ordered list of key-value pairs. -/
def assocFind (l : List (String × α)) (k : String) : Option α :=
  (l.find? (fun p => p.1 = k)).map (·.2)

/-- Association-list update of an existing key in place, embedding the
`Map.prototype.set` of a key that is already present (insertion order is
preserved, as for JS `Map`). -/
def assocSet (l : List (String × α)) (k : String) (v : α) : List (String × α) :=
  l.map (fun p => if p.1 = k then (k, v) else p)

/-! ## JS numbers

The surface complexity score is computed with JS double arithmetic and,
on an empty repository, produces `0/0 = NaN` and `Math.max() = -Infinity`.
`JSNum` embeds the values reachable by that computation: `nan`, the two
infinities, and finite values as exact unnormalized fractions `fnum/fden`
(the denominators stay positive in every operation below). -/

/-- Unnormalized fraction: the finite payload of a `JSNum`. -/
structure Frac where
  fnum : Int
  fden : Int
  deriving DecidableEq

/-- Embeds a JS number: `NaN`, the infinities, or a finite value. -/
inductive JSNum where
  | nan
  | posInf
  | negInf
  | num (q : Frac)
  deriving DecidableEq

/-- A natural number as a `JSNum`. -/
def JSNum.ofNat (n : Nat) : JSNum :=
  .num ⟨(n : Int), 1⟩

/-- Embeds JS `+` on numbers: `NaN` propagates, opposite infinities give
`NaN`. -/
def jsAdd : JSNum → JSNum → JSNum
  | .nan, _ => .nan
  | _, .nan => .nan
  | .posInf, .negInf => .nan
  | .negInf, .posInf => .nan
  | .posInf, _ => .posInf
  | _, .posInf => .posInf
  | .negInf, _ => .negInf
  | _, .negInf => .negInf
  | .num a, .num b => .num ⟨a.fnum * b.fden + b.fnum * a.fden, a.fden * b.fden⟩

/-- Embeds JS `/` on numbers for the cases reachable in
`calculateComplexity` (finite divided by finite): `0/0 = NaN`,
`x/0 = ±Infinity` for `x ≠ 0`, and `NaN` propagates. -/
def jsDiv : JSNum → JSNum → JSNum
  | .nan, _ => .nan
  | _, .nan => .nan
  | .posInf, _ => .posInf
  | .negInf, _ => .negInf
  | .num _, .posInf => .num ⟨0, 1⟩
  | .num _, .negInf => .num ⟨0, 1⟩
  | .num a, .num b =>
    if b.fnum = 0 then
      if a.fnum = 0 then .nan
      else if a.fnum > 0 then .posInf
      else .negInf
    else .num ⟨a.fnum * b.fden, a.fden * b.fnum⟩

/-- Embeds JS `*` by a positive natural constant (the only multiplication
in `calculateComplexity`): `NaN` propagates and the infinities keep their
sign. -/
def jsMulNat : JSNum → Nat → JSNum
  | .nan, _ => .nan
  | .posInf, _ => .posInf
  | .negInf, _ => .negInf
  | .num a, n => .num ⟨a.fnum * (n : Int), a.fden⟩

/-- Comparison `a ≤ b` of finite fractions with positive denominators by
cross multiplication. -/
def fracLe (a b : Frac) : Bool :=
  a.fnum * b.fden ≤ b.fnum * a.fden

/-- Embeds `Math.min` of two numbers: any `NaN` argument gives `NaN`. -/
def jsMin : JSNum → JSNum → JSNum
  | .nan, _ => .nan
  | _, .nan => .nan
  | .negInf, _ => .negInf
  | _, .negInf => .negInf
  | .posInf, b => b
  | a, .posInf => a
  | .num a, .num b => if fracLe a b then .num a else .num b

/-- Embeds `Math.max` of two numbers: any `NaN` argument gives `NaN`. -/
def jsMax : JSNum → JSNum → JSNum
  | .nan, _ => .nan
  | _, .nan => .nan
  | .posInf, _ => .posInf
  | _, .posInf => .posInf
  | .negInf, b => b
  | a, .negInf => a
  | .num a, .num b => if fracLe a b then .num b else .num a

/-- Embeds a spread `Math.max(...list)`: the fold starts from
`-Infinity`, which is what JS returns on an empty argument list. -/
def jsMaxList (l : List JSNum) : JSNum :=
  l.foldl jsMax .negInf

/-- Embeds `Math.round`: half-up toward positive infinity on finite
values (`⌊q + 1/2⌋ = ⌊(2n + d) / 2d⌋` with floor division), identity on
`NaN` and the infinities. -/
def jsRound : JSNum → JSNum
  | .nan => .nan
  | .posInf => .posInf
  | .negInf => .negInf
  | .num a => .num ⟨Int.fdiv (2 * a.fnum + a.fden) (2 * a.fden), 1⟩

/-! ## Data model (from `types.ts`)

Union types of the source (`"core" | "util" | ...`) are embedded as
`String` fields carrying the same literals, so that the embedded
functions can compare them exactly as the source does. Optional record
fields that no claim mentions (`parameters`, `returnType`, `readme`,
`structure`) are omitted. -/

/-- Embeds `LanguageBreakdown`. -/
structure LanguageBreakdown where
  language : String
  fileCount : Nat
  percentage : Int
  extensions : List String
  deriving DecidableEq

/-- Embeds `RepositoryMap`; the directory tree (`structure`) and the
optional `readme` marker, which no claim mentions, are omitted. -/
structure RepositoryMap where
  name : String
  languages : List LanguageBreakdown
  fileCount : Nat
  totalSize : Nat
  estimatedTokens : Nat
  entryPoints : List String
  deriving DecidableEq

/-- Embeds `ModuleIdentification`; `type` holds one of `"core"`,
`"util"`, `"test"`, `"config"`, `"unknown"`. -/
structure ModuleIdentification where
  path : String
  name : String
  type : String
  fileCount : Nat
  primaryLanguage : String
  deriving DecidableEq

/-- Embeds the surface layer `FileInfo` (gathered by `gatherFileInfo`
from filesystem metadata; here file lists are inputs). -/
structure FileInfo where
  path : String
  relativePath : String
  size : Nat
  language : String
  extension : String
  deriving DecidableEq

/-- Embeds `SurfaceAnalysis.estimatedAnalysisTime`. -/
structure EstimatedTime where
  structural : Nat
  semantic : Nat
  deriving DecidableEq

/-- Embeds `SurfaceAnalysis`. The `complexity` field is the 0-100 score;
it is carried as `Int` here because the downstream consumers
(`buildSummary`, the orchestrator warnings) only compare it against
integer thresholds. `calculateComplexity` below, which produces it, is
embedded separately over `JSNum` to capture its JS number semantics. -/
structure SurfaceAnalysis where
  repositoryMap : RepositoryMap
  identifiedModules : List ModuleIdentification
  complexity : Int
  estimatedAnalysisTime : EstimatedTime
  deriving DecidableEq

/-- Embeds `ExtractedSymbol`; `type` holds one of `"function"`,
`"class"`, `"interface"`, `"type"`, `"variable"`, `"constant"`,
`"method"`. -/
structure ExtractedSymbol where
  name : String
  type : String
  file : String
  line : Nat
  exported : Bool
  deriving DecidableEq

/-- Embeds `ImportRelation`; the source field names `from` and `to` are
Lean keywords and are embedded as `fromFile` and `toModule`. -/
structure ImportRelation where
  fromFile : String
  toModule : String
  importedNames : List String
  isDefault : Bool
  isType : Bool
  deriving DecidableEq

/-- Embeds the `complexity` record of `StructuralAnalysis`. -/
structure ComplexityMetrics where
  cyclomaticComplexity : Nat
  linesOfCode : Nat
  functionCount : Nat
  classCount : Nat
  deriving DecidableEq

/-- Embeds `StructuralAnalysis`. -/
structure StructuralAnalysis where
  modulePath : String
  symbols : List ExtractedSymbol
  imports : List ImportRelation
  exports : List String
  complexity : ComplexityMetrics
  deriving DecidableEq

/-- Embeds `DetectedPattern`; `confidence` is a number in `[0, 1]`,
carried as a `Frac`. -/
structure DetectedPattern where
  name : String
  type : String
  confidence : Frac
  locations : List String
  description : String
  deriving DecidableEq

/-- Embeds `DataModel`. -/
structure DataModel where
  name : String
  fields : List String
  relationships : List String
  deriving DecidableEq

/-- Embeds `ApiEndpoint`. -/
structure ApiEndpoint where
  path : String
  method : String
  purpose : String
  deriving DecidableEq

/-- Embeds the `crossFileRelationships` element type of
`SemanticAnalysis`; the source field names `from` and `to` are Lean
keywords and are embedded as `fromFile` and `toFile`. -/
structure CrossFileRelationship where
  fromFile : String
  toFile : String
  relationship : String
  deriving DecidableEq

/-- Embeds `SemanticAnalysis`. -/
structure SemanticAnalysis where
  architectureType : String
  patterns : List DetectedPattern
  dataModels : List DataModel
  apiEndpoints : List ApiEndpoint
  crossFileRelationships : List CrossFileRelationship
  insights : List String
  deriving DecidableEq

/-- Embeds `AnalysisSummary`; `complexity` holds one of `"low"`,
`"medium"`, `"high"`. -/
structure AnalysisSummary where
  architectureType : String
  primaryPatterns : List String
  techStack : List String
  complexity : String
  deriving DecidableEq

/-- Embeds the dynamic `Record<string, unknown>` payloads stored in
`ExpandableSection.detail` / `.full` as a tagged union, one constructor
per payload shape the disclosure builder actually constructs. -/
inductive SectionData where
  | moduleOverview (exports : List String) (complexity : ComplexityMetrics)
      (symbolCount : Nat) (importCount : Nat)
  | moduleDetail (exports : List String) (complexity : ComplexityMetrics)
      (topSymbols : List (String × String × Nat)) (importCount : Nat)
  | moduleFull (data : StructuralAnalysis)
  | patternsOverview (patternCount : Nat)
      (topPatterns : List (String × String × Frac))
  | patternsDetail (patterns : List DetectedPattern)
  | patternsFull (patterns : List DetectedPattern)
      (crossFileRelationships : List CrossFileRelationship)
  | dataModelsOverview (modelCount : Nat) (models : List (String × Nat))
  | dataModelsDetail (models : List DataModel)
  | dataModelsFull (models : List DataModel)
  | apiOverview (endpointCount : Nat) (endpoints : List ApiEndpoint)
  | apiDetail (endpoints : List ApiEndpoint)
  | apiFull (endpoints : List ApiEndpoint)
  deriving DecidableEq

/-- Embeds `ExpandableSection`; `type` holds one of `"module"`,
`"pattern"`, `"datamodel"`, `"api"`, `"custom"`. The `expansionCost`
field (token estimates obtained from `JSON.stringify` sizes, mentioned
by no claim) is omitted. -/
structure ExpandableSection where
  id : String
  title : String
  type : String
  summary : String
  canExpand : Bool
  detail : Option SectionData
  full : Option SectionData
  deriving DecidableEq

/-- Embeds the `partialFailures` element type of `AnalysisResultV2`. -/
structure PartialFailure where
  layer : String
  error : String
  deriving DecidableEq

/-- Embeds `AnalysisDepth`. -/
inductive AnalysisDepth where
  | surface
  | standard
  | deep
  deriving DecidableEq

/-- Embeds `AnalysisResultV2`; the metadata fields `version`,
`timestamp`, `durationMs` and `tokenCost` (wall clock and
`JSON.stringify` sizes, mentioned by no claim) and the `forAgent` digest
(prose string assembly in `buildAgentDigest`, mentioned by no claim) are
omitted. -/
structure AnalysisResultV2 where
  analysisId : String
  source : String
  depth : AnalysisDepth
  repositoryMap : RepositoryMap
  summary : AnalysisSummary
  sections : List ExpandableSection
  warnings : Option (List String)
  partialFailures : Option (List PartialFailure)
  deriving DecidableEq

/-- Embeds `AnalysisOptions`; `focus` and `exclude` are omitted (no
claim exercises the focus filter or the ignore patterns). An absent
option is `none`, matching `undefined`. -/
structure AnalysisOptions where
  depth : Option AnalysisDepth := none
  tokenBudget : Option Nat := none
  includeSemantics : Option Bool := none
  deriving DecidableEq

/-! ## File filter (from `file-filter.ts`) -/

/-- Embeds `PRIORITY_DIRECTORIES`. -/
def PRIORITY_DIRECTORIES : List String :=
  ["src", "lib", "app", "pages", "components", "api", "routes",
   "controllers", "models", "services", "utils", "helpers", "core",
   "pkg", "internal", "cmd"]

/-- Embeds `isPriorityDirectory`: some `/`-separated part of the path is
a conventionally prioritized directory name. -/
def isPriorityDirectory (dirPath : String) : Bool :=
  (strSplitChar dirPath '/').any (fun part => PRIORITY_DIRECTORIES.contains part)

/-! ## Surface scanner (from `layers/surface.ts`)

The filesystem enumeration (`glob`, `stat`) is an external collaborator;
the embedded functions take the gathered `FileInfo` list as input, as
`identifyModules` and `calculateComplexity` do in the source. -/

/-- Embeds the `core` row of `MODULE_TYPE_PATTERNS`:
`/^src\/core/`, `/^src\/lib/`, `/^lib\//`, `/^pkg\//`, `/^internal\//`
(all anchored at the start). -/
def matchesCoreType (relativePath : String) : Bool :=
  strStartsWith relativePath "src/core" || strStartsWith relativePath "src/lib" ||
  strStartsWith relativePath "lib/" || strStartsWith relativePath "pkg/" ||
  strStartsWith relativePath "internal/"

/-- Embeds the `util` row of `MODULE_TYPE_PATTERNS`:
`/utils?\//`, `/helpers?\//`, `/common\//`, `/shared\//` (unanchored;
the optional `s` makes two literal alternatives each). -/
def matchesUtilType (relativePath : String) : Bool :=
  strContains relativePath "util/" || strContains relativePath "utils/" ||
  strContains relativePath "helper/" || strContains relativePath "helpers/" ||
  strContains relativePath "common/" || strContains relativePath "shared/"

/-- Embeds the `test` row of `MODULE_TYPE_PATTERNS`:
`/tests?\//`, `/specs?\//`, `/__tests__\//`, `/\.test\./`, `/\.spec\./`. -/
def matchesTestType (relativePath : String) : Bool :=
  strContains relativePath "test/" || strContains relativePath "tests/" ||
  strContains relativePath "spec/" || strContains relativePath "specs/" ||
  strContains relativePath "__tests__/" ||
  strContains relativePath ".test." || strContains relativePath ".spec."

/-- Embeds the `config` row of `MODULE_TYPE_PATTERNS`:
`/config\//`, `/\.config\./`, `/settings\//`. -/
def matchesConfigType (relativePath : String) : Bool :=
  strContains relativePath "config/" || strContains relativePath ".config." ||
  strContains relativePath "settings/"

/-- Embeds the module-type classification in `identifyModules`: the
first matching row of `MODULE_TYPE_PATTERNS` in object order (core,
util, test, config), then the priority-directory override forcing
`core`. -/
def classifyModuleType (relativePath modulePath : String) : String :=
  let t :=
    if matchesCoreType relativePath then "core"
    else if matchesUtilType relativePath then "util"
    else if matchesTestType relativePath then "test"
    else if matchesConfigType relativePath then "config"
    else "unknown"
  if isPriorityDirectory modulePath then "core" else t

/-- Accumulator entry of the module map in `identifyModules`. -/
structure ModuleAccum where
  files : List FileInfo
  type : String
  deriving DecidableEq

/-- Embeds the per-file accumulation step of `identifyModules`: files
whose relative path has fewer than two `/`-separated parts are skipped,
the first part is the module path, and a module keeps the first
non-`unknown` classification seen. -/
def identifyModulesStep (acc : List (String × ModuleAccum)) (file : FileInfo) :
    List (String × ModuleAccum) :=
  let parts := strSplitChar file.relativePath '/'
  if parts.length < 2 then acc
  else
    let modulePath := parts.headD ""
    let moduleType := classifyModuleType file.relativePath modulePath
    match assocFind acc modulePath with
    | none => acc ++ [(modulePath, ⟨[file], moduleType⟩)]
    | some a =>
      let newType := if moduleType ≠ "unknown" && a.type = "unknown" then moduleType else a.type
      assocSet acc modulePath ⟨a.files ++ [file], newType⟩

/-- Embeds the primary-language computation of `identifyModules`: count
files per language in first-seen order, stably sort by count descending,
take the first (defaulting to `"Unknown"`). -/
def primaryLanguageOf (files : List FileInfo) : String :=
  let counts := files.foldl
    (fun acc f =>
      match assocFind acc f.language with
      | none => acc ++ [(f.language, 1)]
      | some n => assocSet acc f.language (n + 1))
    ([] : List (String × Nat))
  match stableSortBy (fun a b => a.2 ≥ b.2) counts with
  | [] => "Unknown"
  | x :: _ => x.1

/-- Embeds the `typePriority` table of the final sort in
`identifyModules` (`core 0, util 1, config 2, unknown 3, test 4`). -/
def typePriority (t : String) : Nat :=
  if t = "core" then 0
  else if t = "util" then 1
  else if t = "config" then 2
  else if t = "test" then 4
  else 3

/-- The boolean `≤` of the final sort comparator in `identifyModules`:
type priority first, then file count descending. -/
def moduleOrderLe (a b : ModuleIdentification) : Bool :=
  if typePriority a.type = typePriority b.type then a.fileCount ≥ b.fileCount
  else typePriority a.type < typePriority b.type

/-- Embeds `identifyModules`. -/
def identifyModules (files : List FileInfo) : List ModuleIdentification :=
  let m := files.foldl identifyModulesStep []
  let mods := m.map (fun p =>
    ({ path := p.1, name := p.1, type := p.2.type,
       fileCount := p.2.files.length,
       primaryLanguage := primaryLanguageOf p.2.files } : ModuleIdentification))
  stableSortBy moduleOrderLe (mods.filter (fun m => m.fileCount > 0))

/-- Embeds `calculateComplexity`, faithfully tracking its JS number
semantics: on an empty file list the average-size term is `0/0 = NaN`
and the depth term starts from `Math.max() = -Infinity`, so the final
score is `NaN`. -/
def calculateComplexity (files : List FileInfo)
    (modules : List ModuleIdentification) : JSNum :=
  let fileCountScore := jsMin (JSNum.ofNat 30)
    (jsDiv (JSNum.ofNat files.length) (JSNum.ofNat 100))
  let moduleScore := jsMin (JSNum.ofNat 20) (JSNum.ofNat (modules.length * 2))
  let langScore := jsMin (JSNum.ofNat 20)
    (JSNum.ofNat ((files.map (·.language)).eraseDups.length * 4))
  let avgSize := jsDiv (JSNum.ofNat (files.foldl (fun sum f => sum + f.size) 0))
    (JSNum.ofNat files.length)
  let sizeScore := jsMin (JSNum.ofNat 15) (jsDiv avgSize (JSNum.ofNat 1000))
  let maxDepth := jsMaxList
    (files.map (fun f => JSNum.ofNat (strSplitChar f.relativePath '/').length))
  let depthScore := jsMin (JSNum.ofNat 15) (jsMulNat maxDepth 2)
  let score := jsAdd (jsAdd (jsAdd (jsAdd fileCountScore moduleScore) langScore)
    sizeScore) depthScore
  jsRound (jsMin (JSNum.ofNat 100) score)

/-! ## Structural extractor (from `layers/structural.ts`)

The source extracts symbols with global JS regexes run by repeated
`exec`. Each regex used is embedded as a matcher
`List Char → Option (length, capture)` trying to match at the start of
its argument (with the backtracking the regex engine performs over the
optional prefixes and the keyword alternation), and `scanMatches` embeds
the `exec` loop: leftmost match, then continue after it. -/

/-- Consumes a literal, returning the remaining characters. -/
def litChars (pat : List Char) (cs : List Char) : Option (List Char) :=
  if pat.isPrefixOf cs then some (cs.drop pat.length) else none

/-- Consumes one or more whitespace characters, greedily (`\s+`). -/
def spacesOnePlus : List Char → Option (List Char)
  | [] => none
  | c :: rest =>
    if isSpaceChar c then
      match rest with
      | [] => some []
      | d :: _ => if isSpaceChar d then spacesOnePlus rest else some rest
    else none

/-- Consumes zero or more whitespace characters, greedily (`\s*`). -/
def spacesMany : List Char → List Char
  | [] => []
  | c :: rest => if isSpaceChar c then spacesMany rest else c :: rest

/-- Consumes one or more word characters, greedily (`(\w+)`), returning
the captured name. -/
def wordOnePlus (cs : List Char) : Option (String × List Char) :=
  let name := cs.takeWhile isWordChar
  if name.isEmpty then none else some (String.mk name, cs.drop name.length)

/-- Tries the keyword alternation of a declaration regex (for example
`(?:function|def|func|fn)`) followed by `\s+(\w+)`: alternatives are
tried in order with backtracking, as the regex engine does. -/
def kwAltName (kws : List String) (cs : List Char) : Option (String × List Char) :=
  match kws with
  | [] => none
  | kw :: rest =>
    match litChars kw.toList cs with
    | some afterKw =>
      match spacesOnePlus afterKw with
      | some afterSp =>
        match wordOnePlus afterSp with
        | some r => some r
        | none => kwAltName rest cs
      | none => kwAltName rest cs
    | none => kwAltName rest cs

/-- A declaration match: consumed length, captured name, and whether the
matched text begins with the `export` keyword (the source computes the
`exported` flag as `match[0].startsWith("export")`). -/
structure DeclMatch where
  len : Nat
  name : String
  exported : Bool
  deriving DecidableEq

/-- Matcher for the symbol regexes of `analyzeFileWithRegex` of shape
`(?:export\s+)?(?:async\s+)?KWS\s+(\w+)` (the optional `async` group is
present only in the function pattern). The optional groups are greedy:
the branch consuming them is tried first, falling back to the branch
without them, exactly as the regex engine backtracks. -/
def matchDecl (allowAsync : Bool) (kws : List String) (cs : List Char) :
    Option DeclMatch :=
  let core := fun (cs₀ : List Char) => kwAltName kws cs₀
  let withAsync := fun (cs₀ : List Char) =>
    if allowAsync then
      match litChars "async".toList cs₀ with
      | some afterA =>
        match spacesOnePlus afterA with
        | some afterSp =>
          match core afterSp with
          | some r => some r
          | none => core cs₀
        | none => core cs₀
      | none => core cs₀
    else core cs₀
  match litChars "export".toList cs with
  | some afterE =>
    (match spacesOnePlus afterE with
     | some afterSp =>
       match withAsync afterSp with
       | some (name, rest) => some ⟨cs.length - rest.length, name, true⟩
       | none =>
         match withAsync cs with
         | some (name, rest) => some ⟨cs.length - rest.length, name, false⟩
         | none => none
     | none =>
       match withAsync cs with
       | some (name, rest) => some ⟨cs.length - rest.length, name, false⟩
       | none => none)
  | none =>
    match withAsync cs with
    | some (name, rest) => some ⟨cs.length - rest.length, name, false⟩
    | none => none

/-- Matcher for the constant regex
`(?:export\s+)?const\s+(\w+)\s*=` of `analyzeFileWithRegex`. -/
def matchConstDecl (cs : List Char) : Option DeclMatch :=
  let core := fun (cs₀ : List Char) =>
    match kwAltName ["const"] cs₀ with
    | some (name, rest) =>
      let afterSp := spacesMany rest
      match afterSp with
      | '=' :: rest₂ => some (name, rest₂)
      | _ => none
    | none => none
  match litChars "export".toList cs with
  | some afterE =>
    (match spacesOnePlus afterE with
     | some afterSp =>
       match core afterSp with
       | some (name, rest) => some ⟨cs.length - rest.length, name, true⟩
       | none =>
         match core cs with
         | some (name, rest) => some ⟨cs.length - rest.length, name, false⟩
         | none => none
     | none =>
       match core cs with
       | some (name, rest) => some ⟨cs.length - rest.length, name, false⟩
       | none => none)
  | none =>
    match core cs with
    | some (name, rest) => some ⟨cs.length - rest.length, name, false⟩
    | none => none

/-- Fueled worker for `scanMatches` (fuel makes the recursion structural
so that the kernel can evaluate it; `fuel = cs.length` always
suffices because every step consumes at least one character). -/
def scanMatchesAux (m : List Char → Option DeclMatch) :
    Nat → Nat → List Char → List (Nat × DeclMatch)
  | 0, _, _ => []
  | _ + 1, _, [] => []
  | fuel + 1, pos, c :: rest =>
    match m (c :: rest) with
    | some dm =>
      let step := max dm.len 1
      (pos, dm) :: scanMatchesAux m fuel (pos + step) ((c :: rest).drop step)
    | none => scanMatchesAux m fuel (pos + 1) rest

/-- Embeds the global-regex `exec` loop of `analyzeFileWithRegex`: finds
the leftmost match from the current position and continues after the
matched text (our matchers never match the empty string; the `max` with
one only serves the fuel argument). -/
def scanMatches (m : List Char → Option DeclMatch) (cs : List Char) :
    List (Nat × DeclMatch) :=
  scanMatchesAux m cs.length 0 cs

/-- Embeds `getLineNumber`: one plus the number of newlines before the
index (`content.slice(0, index).split("\n").length`). -/
def getLineNumber (cs : List Char) (index : Nat) : Nat :=
  (cs.take index).count '\n' + 1

/-- Position-annotated matches of the function pattern
`/(?:export\s+)?(?:async\s+)?(?:function|def|func|fn)\s+(\w+)/g`. -/
def functionDeclMatches (cs : List Char) : List (Nat × DeclMatch) :=
  scanMatches (matchDecl true ["function", "def", "func", "fn"]) cs

/-- Position-annotated matches of `/(?:export\s+)?class\s+(\w+)/g`. -/
def classDeclMatches (cs : List Char) : List (Nat × DeclMatch) :=
  scanMatches (matchDecl false ["class"]) cs

/-- Position-annotated matches of `/(?:export\s+)?interface\s+(\w+)/g`. -/
def interfaceDeclMatches (cs : List Char) : List (Nat × DeclMatch) :=
  scanMatches (matchDecl false ["interface"]) cs

/-- Position-annotated matches of `/(?:export\s+)?type\s+(\w+)/g`. -/
def typeDeclMatches (cs : List Char) : List (Nat × DeclMatch) :=
  scanMatches (matchDecl false ["type"]) cs

/-- Position-annotated matches of `/(?:export\s+)?const\s+(\w+)\s*=/g`. -/
def constDeclMatches (cs : List Char) : List (Nat × DeclMatch) :=
  scanMatches matchConstDecl cs

/-- Builds an `ExtractedSymbol` from a match, as the `symbols.push`
calls of `analyzeFileWithRegex` do: `exported` is whether the matched
text begins with `export`. -/
def symbolOfMatch (symType : String) (filePath : String) (cs : List Char)
    (m : Nat × DeclMatch) : ExtractedSymbol :=
  { name := m.2.name, type := symType, file := filePath,
    line := getLineNumber cs m.1, exported := m.2.exported }

/-- Embeds the per-language profile of `LANGUAGE_CONFIGS` in the parts
the embedding uses: the declaration keywords of `exportPattern`
(`none` for ecosystems without one, such as Go). The `importPattern`
is not embedded: no claim mentions `ImportRelation` contents, and every
concrete content in this development contains no import statement, on
which the source also produces no imports. -/
structure LanguageConfig where
  extensions : List String
  exportKeywords : Option (List String)
  deriving DecidableEq

/-- The `typescript` entry of `LANGUAGE_CONFIGS` (its `exportPattern` is
`/export\s+(?:default\s+)?(?:function|class|const|let|var|type|interface)\s+(\w+)/g`). -/
def typescriptConfig : LanguageConfig :=
  { extensions := [".ts", ".tsx"],
    exportKeywords := some ["function", "class", "const", "let", "var", "type", "interface"] }

/-- The `go` entry of `LANGUAGE_CONFIGS` (no `exportPattern`). -/
def goConfig : LanguageConfig :=
  { extensions := [".go"], exportKeywords := none }

/-- Matcher for an `exportPattern` of shape
`export\s+(?:default\s+)?KWS\s+(\w+)`. -/
def matchExportDecl (kws : List String) (cs : List Char) : Option DeclMatch :=
  match litChars "export".toList cs with
  | none => none
  | some afterE =>
    match spacesOnePlus afterE with
    | none => none
    | some afterSp =>
      let core := fun (cs₀ : List Char) => kwAltName kws cs₀
      let result :=
        match litChars "default".toList afterSp with
        | some afterD =>
          (match spacesOnePlus afterD with
           | some afterSp₂ =>
             (match core afterSp₂ with
              | some r => some r
              | none => core afterSp)
           | none => core afterSp)
        | none => core afterSp
      match result with
      | some (name, rest) => some ⟨cs.length - rest.length, name, true⟩
      | none => none

/-- The result record of `analyzeFileWithRegex`. -/
structure FileRegexResult where
  symbols : List ExtractedSymbol
  imports : List ImportRelation
  exports : List String
  deriving DecidableEq

/-- Embeds the final export merge of `analyzeFileWithRegex`: names of
exported symbols are appended to the `exportPattern` results without
duplicates. -/
def mergeSymbolExports (exports : List String) (symbols : List ExtractedSymbol) :
    List String :=
  symbols.foldl
    (fun acc s => if s.exported && !acc.contains s.name then acc ++ [s.name] else acc)
    exports

/-- Embeds `analyzeFileWithRegex`: symbols from the five declaration
regexes (constants kept only when exported or upper-case), exports from
the `exportPattern` of the language profile merged with the exported
symbol names. Import extraction is not embedded (see `LanguageConfig`). -/
def analyzeFileWithRegex (filePath content : String) (config : LanguageConfig) :
    FileRegexResult :=
  let cs := content.toList
  let symbols :=
    (functionDeclMatches cs).map (symbolOfMatch "function" filePath cs) ++
    (classDeclMatches cs).map (symbolOfMatch "class" filePath cs) ++
    (interfaceDeclMatches cs).map (symbolOfMatch "interface" filePath cs) ++
    (typeDeclMatches cs).map (symbolOfMatch "type" filePath cs) ++
    ((constDeclMatches cs).filter
      (fun m => m.2.exported || strToUpper m.2.name = m.2.name)).map
      (symbolOfMatch "constant" filePath cs)
  let patternExports :=
    match config.exportKeywords with
    | none => []
    | some kws => (scanMatches (matchExportDecl kws) cs).map (fun m => m.2.name)
  { symbols := symbols,
    imports := [],
    exports := mergeSymbolExports patternExports symbols }

/-- Embeds the per-module file selection of `analyzeModulesStructurally`
(`filePath.startsWith(module.path + "/") || filePath === module.path`
over the loaded file-content map, carried here as an ordered list of
path-content pairs). -/
def moduleFilesFor (fileContents : List (String × String))
    (m : ModuleIdentification) : List (String × String) :=
  fileContents.filter
    (fun f => strStartsWith f.1 (m.path ++ "/") || f.1 = m.path)

/-- Embeds `analyzeModulesStructurally`, with the per-module extraction
outcome passed in as `extract` (the source calls `structuralAnalysis`
inside a `try`/`catch`; an `Except.error` is the thrown case): a module
with no files yields no report, a module whose extraction throws is
caught, logged and dropped, and the surviving reports are concatenated
in module order (the batches of five are processed in order, so the
batched concatenation equals the flat one). -/
def analyzeModulesStructurally (modules : List ModuleIdentification)
    (fileContents : List (String × String))
    (extract : ModuleIdentification → List (String × String) →
      Except String StructuralAnalysis) : List StructuralAnalysis :=
  modules.filterMap (fun m =>
    let moduleFiles := moduleFilesFor fileContents m
    if moduleFiles.isEmpty then none
    else
      match extract m moduleFiles with
      | .ok r => some r
      | .error _ => none)

/-! ## Disclosure builder (from `disclosure.ts`) -/

/-- Embeds the section-id sanitization of `buildExpandableSections`:
`module.path.replace(/[^a-zA-Z0-9]/g, "_")`. -/
def sanitizeSectionPath (p : String) : String :=
  String.mk (p.toList.map (fun c => if c.isAlphanum then c else '_'))

/-- Embeds the id-to-path reconstruction of `expandSection`:
`section.id.replace("module_", "").replace(/_/g, "/")` (the first
`replace` has a plain string pattern, so it replaces only the first
occurrence). -/
def modulePathOfSectionId (sectionId : String) : String :=
  let stripped := replaceFirstOcc sectionId "module_" ""
  String.mk (stripped.toList.map (fun c => if c = '_' then '/' else c))

/-- Embeds `buildSummary`. The `architectureType` inference mirrors the
source: the semantic value when present and truthy (a present but empty
string falls through to the heuristics, as JS truthiness does),
otherwise exact lowercase module-name membership tests. -/
def buildSummary (surface : SurfaceAnalysis) (_structural : List StructuralAnalysis)
    (semantic : Option SemanticAnalysis) : AnalysisSummary :=
  let inferred :=
    let modules := surface.identifiedModules.map (fun m => strToLower m.name)
    if modules.any (fun m => (["controllers", "routes", "api"] : List String).contains m) then
      "web-application"
    else if modules.any (fun m => (["components", "views"] : List String).contains m) then
      "component-based"
    else if modules.any (fun m => (["lib", "pkg"] : List String).contains m) then
      "library"
    else "unknown"
  let architectureType :=
    match semantic with
    | some s => if s.architectureType = "" then inferred else s.architectureType
    | none => inferred
  let primaryPatterns :=
    match semantic with
    | some s =>
      ((s.patterns.filter (fun p => !fracLe p.confidence ⟨7, 10⟩)).take 5).map (·.name)
    | none => []
  let techStack := (surface.repositoryMap.languages.take 5).map (·.language)
  let complexity :=
    if surface.complexity < 30 then "low"
    else if surface.complexity > 70 then "high"
    else "medium"
  { architectureType := architectureType, primaryPatterns := primaryPatterns,
    techStack := techStack, complexity := complexity }

/-- Embeds the module-section construction of `buildExpandableSections`
for one module (`expansionCost` omitted, see `ExpandableSection`). -/
def moduleSectionFor (structural : List StructuralAnalysis)
    (m : ModuleIdentification) : ExpandableSection :=
  let structuralData := structural.find? (fun s => s.modulePath = m.path)
  { id := "module_" ++ sanitizeSectionPath m.path,
    title := "Module: " ++ m.name,
    type := "module",
    summary := m.type ++ " module with " ++ toString m.fileCount ++ " files in " ++
      m.primaryLanguage,
    canExpand := structuralData.isSome,
    detail := structuralData.map (fun sd =>
      SectionData.moduleOverview sd.exports sd.complexity sd.symbols.length
        sd.imports.length),
    full := none }

/-- Embeds `buildExpandableSections`: one section per of the first ten
surface modules, then the `patterns_overview`, `data_models` and
`api_endpoints` sections when the semantic report has the corresponding
non-empty list. -/
def buildExpandableSections (surface : SurfaceAnalysis)
    (structural : List StructuralAnalysis) (semantic : Option SemanticAnalysis) :
    List ExpandableSection :=
  let moduleSections :=
    (surface.identifiedModules.take 10).map (moduleSectionFor structural)
  let patternSections :=
    match semantic with
    | some s =>
      if s.patterns.length > 0 then
        [{ id := "patterns_overview",
           title := "Design Patterns",
           type := "pattern",
           summary := toString s.patterns.length ++ " patterns detected: " ++
             String.intercalate ", " ((s.patterns.take 3).map (·.name)) ++
             (if s.patterns.length > 3 then "..." else ""),
           canExpand := true,
           detail := some (SectionData.patternsOverview s.patterns.length
             ((s.patterns.take 5).map (fun p => (p.name, p.type, p.confidence)))),
           full := none }]
      else []
    | none => []
  let dataModelSections :=
    match semantic with
    | some s =>
      if s.dataModels.length > 0 then
        [{ id := "data_models",
           title := "Data Models",
           type := "datamodel",
           summary := toString s.dataModels.length ++ " data models: " ++
             String.intercalate ", " ((s.dataModels.take 3).map (·.name)) ++
             (if s.dataModels.length > 3 then "..." else ""),
           canExpand := true,
           detail := some (SectionData.dataModelsOverview s.dataModels.length
             ((s.dataModels.take 5).map (fun m => (m.name, m.fields.length)))),
           full := none }]
      else []
    | none => []
  let apiSections :=
    match semantic with
    | some s =>
      if s.apiEndpoints.length > 0 then
        [{ id := "api_endpoints",
           title := "API Endpoints",
           type := "api",
           summary := toString s.apiEndpoints.length ++ " endpoints detected",
           canExpand := true,
           detail := some (SectionData.apiOverview s.apiEndpoints.length
             (s.apiEndpoints.take 10)),
           full := none }]
      else []
    | none => []
  moduleSections ++ patternSections ++ dataModelSections ++ apiSections

/-- Embeds `buildAnalysisResult` (the omitted metadata fields are listed
at `AnalysisResultV2`; `warnings` and `partialFailures` start absent and
are filled in by the orchestrator). -/
def buildAnalysisResult (analysisId source : String) (depth : AnalysisDepth)
    (surface : SurfaceAnalysis) (structural : List StructuralAnalysis)
    (semantic : Option SemanticAnalysis) : AnalysisResultV2 :=
  { analysisId := analysisId,
    source := source,
    depth := depth,
    repositoryMap := surface.repositoryMap,
    summary := buildSummary surface structural semantic,
    sections := buildExpandableSections surface structural semantic,
    warnings := none,
    partialFailures := none }

/-- Embeds `expandSection`: locate the section by id, refuse when absent
or not expandable, then re-derive `detail` or `full` from the original
structural/semantic reports (the source deep-copies the section and
patches the copy; in the pure embedding the copy is the section value
itself). The expansion level is the source union `"detail" | "full"`:
any value other than `"detail"` takes the `full` branch, as the source
`if`/`else` does. -/
def expandSection (result : AnalysisResultV2) (sectionId : String) (level : String)
    (structural : List StructuralAnalysis) (semantic : Option SemanticAnalysis) :
    Option ExpandableSection :=
  match result.sections.find? (fun s => s.id = sectionId) with
  | none => none
  | some sec =>
    if !sec.canExpand then none
    else if sec.type = "module" then
      let modulePath := modulePathOfSectionId sec.id
      match structural.find? (fun s => s.modulePath = modulePath) with
      | some sd =>
        if level = "detail" then
          some { sec with detail := some (SectionData.moduleDetail sd.exports
            sd.complexity
            ((sd.symbols.take 20).map (fun s => (s.name, s.type, s.line)))
            sd.imports.length) }
        else
          some { sec with full := some (SectionData.moduleFull sd) }
      | none => some sec
    else if sec.type = "pattern" then
      match semantic with
      | some s =>
        if level = "detail" then
          some { sec with detail := some (SectionData.patternsDetail (s.patterns.take 10)) }
        else
          some { sec with full := some (SectionData.patternsFull s.patterns
            s.crossFileRelationships) }
      | none => some sec
    else if sec.type = "datamodel" then
      match semantic with
      | some s =>
        if level = "detail" then
          some { sec with detail := some (SectionData.dataModelsDetail (s.dataModels.take 10)) }
        else
          some { sec with full := some (SectionData.dataModelsFull s.dataModels) }
      | none => some sec
    else if sec.type = "api" then
      match semantic with
      | some s =>
        if level = "detail" then
          some { sec with detail := some (SectionData.apiDetail (s.apiEndpoints.take 20)) }
        else
          some { sec with full := some (SectionData.apiFull s.apiEndpoints) }
      | none => some sec
    else some sec

/-! ## Result cache (from `cache.ts`)

The `Map` behind `AnalysisCache` is carried as an insertion-ordered
entry list (JS `Map` iterates in insertion order, and `set` of an
existing key updates in place); keys are unique in every reachable
state, so `Map.delete` of a key is embedded as filtering that key out.
`Date.now()` enters as an explicit `now` argument. -/

/-- Embeds `DEFAULT_TTL_MS` (one hour). -/
def DEFAULT_TTL_MS : Nat := 60 * 60 * 1000

/-- Embeds `MAX_CACHE_ENTRIES`. -/
def MAX_CACHE_ENTRIES : Nat := 50

/-- Embeds the `metadata` record of `CacheEntry`. -/
structure CacheMetadata where
  source : String
  commitHash : Option String
  depth : AnalysisDepth
  deriving DecidableEq

/-- Embeds `CacheEntry<T>`. -/
structure CacheEntry (T : Type) where
  key : String
  value : T
  createdAt : Nat
  expiresAt : Nat
  metadata : CacheMetadata
  deriving DecidableEq

/-- Embeds the `AnalysisCache` class state. -/
structure AnalysisCache (T : Type) where
  entries : List (CacheEntry T)
  ttlMs : Nat
  deriving DecidableEq

/-- Embeds `AnalysisCache.generateKey`: backslashes to slashes, trailing
slashes stripped, optional `@commitHash` tag. -/
def AnalysisCache.generateKey (source : String) (commitHash : Option String) : String :=
  let normalized := String.mk
    (((source.toList.map (fun c => if c = '\\' then '/' else c)).reverse.dropWhile
      (fun c => c = '/')).reverse)
  match commitHash with
  | some h => normalized ++ "@" ++ h
  | none => normalized

/-- Embeds the scan loop of `AnalysisCache.evictOldest`: tracks the key
and creation time of the oldest entry seen so far, replacing only on a
strictly smaller creation time (`oldestTime` starts at `Infinity`, so
the first entry always replaces the empty accumulator). -/
def evictScan {T : Type} : List (CacheEntry T) → Option (String × Nat) →
    Option (String × Nat)
  | [], best => best
  | e :: rest, none => evictScan rest (some (e.key, e.createdAt))
  | e :: rest, some (k, t) =>
    if e.createdAt < t then evictScan rest (some (e.key, e.createdAt))
    else evictScan rest (some (k, t))

/-- Embeds `AnalysisCache.evictOldest`. -/
def AnalysisCache.evictOldest {T : Type} (c : AnalysisCache T) : AnalysisCache T :=
  match evictScan c.entries none with
  | none => c
  | some (k, _) => { c with entries := c.entries.filter (fun e => e.key != k) }

/-- Embeds `Map.prototype.set` on the entry list: update in place when
the key exists (keeping insertion order), append otherwise. -/
def mapSet {T : Type} (entries : List (CacheEntry T)) (e : CacheEntry T) :
    List (CacheEntry T) :=
  if entries.any (fun x => x.key == e.key) then
    entries.map (fun x => if x.key = e.key then e else x)
  else entries ++ [e]

/-- Embeds `AnalysisCache.set`: evict the oldest entry when at capacity,
then store a fresh entry with `createdAt = now` and
`expiresAt = now + ttlMs`. -/
def AnalysisCache.set {T : Type} (c : AnalysisCache T) (now : Nat) (source : String)
    (data : T) (commitHash : Option String) (depth : AnalysisDepth) :
    AnalysisCache T :=
  let c₁ := if c.entries.length ≥ MAX_CACHE_ENTRIES then c.evictOldest else c
  let key := AnalysisCache.generateKey source commitHash
  let entry : CacheEntry T :=
    { key := key, value := data, createdAt := now, expiresAt := now + c.ttlMs,
      metadata := { source := source, commitHash := commitHash, depth := depth } }
  { c₁ with entries := mapSet c₁.entries entry }

/-- Embeds `AnalysisCache.get`: lazy expiry on read (delete and miss
when `now > expiresAt`). The possibly-updated cache state is returned
alongside the value. -/
def AnalysisCache.get {T : Type} (c : AnalysisCache T) (now : Nat) (source : String)
    (commitHash : Option String) : Option T × AnalysisCache T :=
  let key := AnalysisCache.generateKey source commitHash
  match c.entries.find? (fun e => e.key == key) with
  | none => (none, c)
  | some e =>
    if now > e.expiresAt then
      (none, { c with entries := c.entries.filter (fun x => x.key != key) })
    else (some e.value, c)

/-- Embeds the `AnalysisCacheData` record stored in the cache by the
orchestrator. -/
structure AnalysisCacheData where
  result : AnalysisResultV2
  surface : SurfaceAnalysis
  structural : List StructuralAnalysis
  semantic : Option SemanticAnalysis
  deriving DecidableEq

/-- Embeds `AnalysisCache.getByAnalysisId`: linear scan in insertion
order for the first live entry whose stored result carries the id; an
expired entry found by the scan is deleted and reported as a miss. -/
def AnalysisCache.getByAnalysisId (c : AnalysisCache AnalysisCacheData) (now : Nat)
    (analysisId : String) :
    Option AnalysisCacheData × AnalysisCache AnalysisCacheData :=
  match c.entries.find? (fun e => e.value.result.analysisId == analysisId) with
  | none => (none, c)
  | some e =>
    if now > e.expiresAt then
      (none, { c with entries := c.entries.filter (fun x => x.key != e.key) })
    else (some e.value, c)

/-! ## Orchestrator (from `orchestrator.ts`)

The effectful collaborators enter as arguments: `surface` is the surface
report (the scanner runs on filesystem data), `fileContents` the loaded
per-batch file map, `extract` the per-module structural extraction
outcome (`Except.error` embeds a throw caught by
`analyzeModulesStructurally`), `structuralPhaseError` a failure of the
whole structural phase (the outer `try`/`catch`, which only file-system
errors can reach — per-module extraction errors are already caught
inside `analyzeModulesStructurally`), and `hasGeminiKey` / `geminiCall`
the semantic collaborator. `analysisId` is the `generateAnalysisId`
value (timestamp plus random UUID slice in the source, so unique per
run). The outcome record carries, besides the result and cache, the
instrumentation the spec asks to observe with a spy collaborator: which
phases were entered and whether the Gemini transport was invoked. -/

/-- Embeds `DEFAULT_TOKEN_BUDGET`. -/
def DEFAULT_TOKEN_BUDGET : Nat := 800000

/-- Embeds `SEMANTIC_COMPLEXITY_THRESHOLD`. -/
def SEMANTIC_COMPLEXITY_THRESHOLD : Int := 50

/-- Embeds the no-credential error text thrown by `semanticAnalysis`
before any service call (braces of the embedded JSON snippet written as
escapes). -/
def NO_CREDENTIAL_MESSAGE : String :=
  "Semantic analysis (deep depth) requires GEMINI_API_KEY.\n\n" ++
  "To set it up, add the env var to your MCP server config in ~/.mcp.json:\n\n" ++
  "  \"codebase-analyzer\": \x7b\n" ++
  "    \"command\": \"npx\",\n" ++
  "    \"args\": [\"-y\", \"codebase-analyzer-mcp\"],\n" ++
  "    \"env\": \x7b \"GEMINI_API_KEY\": \"your_key\" \x7d\n" ++
  "  \x7d\n\n" ++
  "Get a free key at https://aistudio.google.com/apikey\n\n" ++
  "Use --depth surface or --depth standard for free analysis without an API key."

/-- Embeds `semanticAnalysis` at the boundary relevant to the claims:
without a configured credential it throws `NO_CREDENTIAL_MESSAGE`
before the service call; otherwise the outcome of the Gemini call is
returned. The second component records whether the service call was
attempted. -/
def semanticAnalysisRun (hasGeminiKey : Bool)
    (geminiCall : Except String SemanticAnalysis) :
    Except String SemanticAnalysis × Bool :=
  if !hasGeminiKey then (.error NO_CREDENTIAL_MESSAGE, false)
  else (geminiCall, true)

/-- Embeds the module-list truncation of the structural phase:
at most `Math.ceil(tokenBudget / 50000)` modules are analyzed (the focus
filter, which no claim exercises, is omitted; with no focus option the
source list is unchanged before truncation). -/
def modulesToAnalyzeOf (surface : SurfaceAnalysis) (tokenBudget : Nat) :
    List ModuleIdentification :=
  let maxModules := min surface.identifiedModules.length ((tokenBudget + 49999) / 50000)
  surface.identifiedModules.take maxModules

/-- Embeds `options.tokenBudget || DEFAULT_TOKEN_BUDGET` (JS truthiness:
an explicit zero falls back to the default). -/
def tokenBudgetOf (options : AnalysisOptions) : Nat :=
  match options.tokenBudget with
  | some n => if n = 0 then DEFAULT_TOKEN_BUDGET else n
  | none => DEFAULT_TOKEN_BUDGET

/-- Embeds `options.includeSemantics || depth === "deep"`. -/
def includeSemanticsOf (options : AnalysisOptions) : Bool :=
  options.includeSemantics.getD false || options.depth.getD .standard = .deep

/-- The budget warning pushed after phase 1. -/
def budgetWarning (tokensUsed tokenBudget : Nat) : String :=
  "Repository size (" ++ toString tokensUsed ++ " tokens) exceeds budget (" ++
  toString tokenBudget ++ "). Analysis may be incomplete."

/-- The complexity warning pushed when semantics were not requested. -/
def complexityWarning (complexity : Int) : String :=
  "Complexity score (" ++ toString complexity ++
  ") suggests semantic analysis would be valuable. Use includeSemantics=true."

/-- Embeds the structural phase block of `orchestrateAnalysis` (the
`try`/`catch` around module batching): on a phase-level error the
structural list stays empty and one `structural` partial failure is
recorded; otherwise the batches run and per-module errors are already
handled inside `analyzeModulesStructurally`. -/
def structuralPhaseRun (modulesToAnalyze : List ModuleIdentification)
    (fileContents : List (String × String))
    (extract : ModuleIdentification → List (String × String) →
      Except String StructuralAnalysis)
    (structuralPhaseError : Option String) :
    List StructuralAnalysis × List PartialFailure :=
  match structuralPhaseError with
  | none => (analyzeModulesStructurally modulesToAnalyze fileContents extract, [])
  | some e => ([], [{ layer := "structural", error := e }])

/-- Embeds the semantic phase block of `orchestrateAnalysis`: when
semantics are requested, a failing `semanticAnalysis` is caught and
recorded as a `semantic` partial failure with the error text, keeping
`semantic` absent; otherwise the quick-hints path runs and may push the
complexity warning. Components: semantic report, partial failures,
whether the Gemini transport was invoked, warnings. -/
def semanticPhaseRun (includeSemantics : Bool) (complexity : Int)
    (hasGeminiKey : Bool) (geminiCall : Except String SemanticAnalysis) :
    Option SemanticAnalysis × List PartialFailure × Bool × List String :=
  if includeSemantics then
    match semanticAnalysisRun hasGeminiKey geminiCall with
    | (.ok s, called) => (some s, [], called, [])
    | (.error e, called) => (none, [{ layer := "semantic", error := e }], called, [])
  else
    (none, [], false,
      if complexity > SEMANTIC_COMPLEXITY_THRESHOLD then
        [complexityWarning complexity]
      else [])

/-- Outcome record of `orchestrateAnalysis` (result, cache state, the
phase outputs, and the spy instrumentation). -/
structure OrchestrateOutcome where
  result : AnalysisResultV2
  cache : AnalysisCache AnalysisCacheData
  structural : List StructuralAnalysis
  semantic : Option SemanticAnalysis
  structuralInvoked : Bool
  semanticInvoked : Bool
  geminiCalled : Bool
  deriving DecidableEq

/-- Embeds `orchestrateAnalysis`. Option defaulting follows the JS
truthiness of the source (`options.depth || "standard"`,
`options.tokenBudget || DEFAULT_TOKEN_BUDGET` — so an explicit zero
budget falls back to the default — and
`options.includeSemantics || depth === "deep"`). Depth `surface`
returns right after phase 1, before the structural phase, the semantic
phase and the cache insertion. -/
def orchestrateAnalysis (repoPath analysisId : String) (options : AnalysisOptions)
    (surface : SurfaceAnalysis) (fileContents : List (String × String))
    (extract : ModuleIdentification → List (String × String) →
      Except String StructuralAnalysis)
    (structuralPhaseError : Option String)
    (hasGeminiKey : Bool) (geminiCall : Except String SemanticAnalysis)
    (cache : AnalysisCache AnalysisCacheData) (now : Nat) : OrchestrateOutcome :=
  let depth := options.depth.getD .standard
  let tokenBudget := tokenBudgetOf options
  let includeSemantics := includeSemanticsOf options
  let tokensUsed := surface.repositoryMap.estimatedTokens
  let warnings₀ := if tokensUsed > tokenBudget then [budgetWarning tokensUsed tokenBudget] else []
  if depth = .surface then
    let result := buildAnalysisResult analysisId repoPath depth surface [] none
    let result := { result with
      warnings := if warnings₀.isEmpty then none else some warnings₀ }
    { result := result, cache := cache, structural := [], semantic := none,
      structuralInvoked := false, semanticInvoked := false, geminiCalled := false }
  else
    let modulesToAnalyze := modulesToAnalyzeOf surface tokenBudget
    let structuralPhase :=
      structuralPhaseRun modulesToAnalyze fileContents extract structuralPhaseError
    let structural := structuralPhase.1
    let semanticPhase :=
      semanticPhaseRun includeSemantics surface.complexity hasGeminiKey geminiCall
    let semantic := semanticPhase.1
    let warnings := warnings₀ ++ semanticPhase.2.2.2
    let partialFailures := structuralPhase.2 ++ semanticPhase.2.1
    let result := buildAnalysisResult analysisId repoPath depth surface structural semantic
    let result := { result with
      warnings := if warnings.isEmpty then none else some warnings,
      partialFailures := if partialFailures.isEmpty then none else some partialFailures }
    let cacheAfter := cache.set now repoPath
      ({ result := result, surface := surface, structural := structural,
         semantic := semantic } : AnalysisCacheData) none depth
    { result := result, cache := cacheAfter, structural := structural,
      semantic := semantic, structuralInvoked := true,
      semanticInvoked := includeSemantics, geminiCalled := semanticPhase.2.2.1 }

/-- Outcome record of `expandAnalysisSection` (the source returns
`{ section, error? }`; the possibly-updated cache state is carried
along; the field `section` is a Lean keyword and is embedded as
`sectionResult`). -/
structure ExpandOutcome where
  sectionResult : Option ExpandableSection
  error : Option String
  cache : AnalysisCache AnalysisCacheData
  deriving DecidableEq

/-- Embeds `expandAnalysisSection`: look the analysis up by id in the
cache, report a not-found error when absent or expired, otherwise
delegate to `expandSection` on the cached reports. -/
def expandAnalysisSection (cache : AnalysisCache AnalysisCacheData) (now : Nat)
    (analysisId sectionId level : String) : ExpandOutcome :=
  let lookup := cache.getByAnalysisId now analysisId
  match lookup.1 with
  | none =>
    { sectionResult := none,
      error := some ("Analysis " ++ analysisId ++
        " not found in cache. It may have expired."),
      cache := lookup.2 }
  | some cached =>
    match expandSection cached.result sectionId level cached.structural
        cached.semantic with
    | none =>
      { sectionResult := none,
        error := some ("Section " ++ sectionId ++ " not found or cannot be expanded."),
        cache := lookup.2 }
    | some s => { sectionResult := some s, error := none, cache := lookup.2 }

/-! ## Concrete fixtures used by the claim theorems -/

set_option maxRecDepth 4000

/-- An empty repository map. -/
def rmapEmpty : RepositoryMap := ⟨"repo", [], 0, 0, 0, []⟩

/-- A surface report with one identified module `src`. -/
def surfOneModule : SurfaceAnalysis :=
  ⟨rmapEmpty, [⟨"src", "src", "core", 1, "Go"⟩], 0, ⟨0, 0⟩⟩

/-- A surface report with the two identified modules `alpha` and `beta`. -/
def surfTwoModules : SurfaceAnalysis :=
  ⟨rmapEmpty, [⟨"alpha", "alpha", "unknown", 1, "Go"⟩,
    ⟨"beta", "beta", "unknown", 1, "Go"⟩], 0, ⟨0, 0⟩⟩

/-- A surface report with one identified module named `routes`. -/
def surfRoutesModule : SurfaceAnalysis :=
  ⟨rmapEmpty, [⟨"routes", "routes", "unknown", 1, "TypeScript"⟩], 0, ⟨0, 0⟩⟩

/-- The empty cache with the default TTL. -/
def emptyCache : AnalysisCache AnalysisCacheData := ⟨[], DEFAULT_TTL_MS⟩

/-- A per-module extraction that always succeeds with an empty report
for the module path. -/
def okExtract : ModuleIdentification → List (String × String) →
    Except String StructuralAnalysis :=
  fun m _ => .ok ⟨m.path, [], [], [], ⟨1, 0, 0, 0⟩⟩

/-- A per-module extraction that throws exactly on the module `alpha`. -/
def alphaThrowsExtract : ModuleIdentification → List (String × String) →
    Except String StructuralAnalysis :=
  fun m _ =>
    if m.path = "alpha" then .error "boom"
    else .ok ⟨m.path, [], [], [], ⟨1, 0, 0, 0⟩⟩

/-- The `FileInfo` of a root-level `main.go` of fifteen bytes (the
content `func main() {}` plus newline). -/
def mainGoFileInfo : FileInfo := ⟨"/repo/main.go", "main.go", 15, "Go", ".go"⟩

/-- The surface report the scanner produces for the repository holding
only the root-level `main.go`: `identifyModules` skips files whose
relative path has a single segment, so no module is identified. -/
def surfMainGo : SurfaceAnalysis :=
  ⟨⟨"repo", [⟨"Go", 1, 100, [".go"]⟩], 1, 15, 4, ["main.go"]⟩,
   identifyModules [mainGoFileInfo], 6, ⟨1010, 5655⟩⟩

/-- Fifty cache entries with distinct keys and increasing creation
times (entry `k0` is the oldest). -/
def bigCacheEntries : List (CacheEntry Nat) :=
  (List.range 50).map (fun i =>
    ⟨"k" ++ toString i, i, i, i + 1000, ⟨"s" ++ toString i, none, .standard⟩⟩)

/-- A cache at capacity (fifty entries). -/
def bigCache : AnalysisCache Nat := ⟨bigCacheEntries, DEFAULT_TTL_MS⟩

/-- A cache holding one entry under key `src` that expires at time 10. -/
def expiredNatCache : AnalysisCache Nat :=
  ⟨[⟨"src", 7, 0, 10, ⟨"src", none, .standard⟩⟩], 100⟩

/-- A cache holding one live entry under key `src` (expires at 1000). -/
def liveNatCache : AnalysisCache Nat :=
  ⟨[⟨"src", 42, 0, 1000, ⟨"src", none, .standard⟩⟩], 100⟩

/-! ## Claim C4 -/

/-- Claim C4 (code bug): the claim states that the surface complexity
score is an integer in `[0, 100]` for every input file list and that an
empty directory yields `complexity = 0`; on the empty file list the
code instead computes `0/0 = NaN` (average file size) and
`Math.max() = -Infinity` (path depth), and the final score is `NaN`,
not `0`. This theorem evaluates the embedded `calculateComplexity` at
the failing input. -/
theorem calculateComplexity_empty_input_is_nan :
    calculateComplexity [] [] = JSNum.nan := by decide

/-! ## Claim C5 -/

/-- Claim C5 (counterexample): for the repository holding only the
root-level file `main.go`, the claim asserts exactly one identified
module and one structural report; `identifyModules` skips every file
whose relative path has fewer than two `/`-separated segments, so the
identified module list is empty, and the standard-depth run produces no
structural report. -/
theorem mainGo_has_no_module :
    identifyModules [mainGoFileInfo] = [] ∧
    (orchestrateAnalysis "/repo" "a5" {} surfMainGo
      [("main.go", "func main() \x7b\x7d\n")] okExtract none false
      (.error "unused") emptyCache 0).structural = [] := by decide

/-- Claim C5 (amended): a repository holding only the root-level
`main.go` yields zero identified modules and zero structural reports at
depth standard (module identification uses the first path segment of
files with at least two segments, so root-level files belong to no
module); the regex extraction itself, applied to the file, does extract
exactly one `function` symbol named `main` with `exported = false` and
an empty exports list, but no identified module triggers it. -/
theorem mainGo_standard_run_outcome :
    identifyModules [mainGoFileInfo] = [] ∧
    (orchestrateAnalysis "/repo" "a5b" {} surfMainGo
      [("main.go", "func main() \x7b\x7d\n")] okExtract none false
      (.error "unused") emptyCache 0).result.sections = [] ∧
    (analyzeFileWithRegex "main.go" "func main() \x7b\x7d\n" goConfig).symbols =
      [⟨"main", "function", "main.go", 1, false⟩] ∧
    (analyzeFileWithRegex "main.go" "func main() \x7b\x7d\n" goConfig).exports = [] := by
  decide

/-! ## Claim C6 -/

/-- Claim C6 (counterexample): the claim asserts that an all-upper-case
constant is flagged `exported = true` even without the `export`
keyword; on the content `const FOO = 1` the extraction includes the
constant `FOO` in the symbol list, but its `exported` flag is `false`
(the flag is computed as `match[0].startsWith("export")` regardless of
case). -/
theorem upperConst_without_keyword_not_exported :
    (analyzeFileWithRegex "config.ts" "const FOO = 1" typescriptConfig).symbols =
      [⟨"FOO", "constant", "config.ts", 1, false⟩] ∧
    strToUpper "FOO" = "FOO" ∧
    (analyzeFileWithRegex "config.ts" "const FOO = 1" typescriptConfig).exports = [] := by
  decide

/-- Claim C6 (amended): the `exported` flag of an extracted symbol
records exactly whether the matched declaration text begins with the
`export` keyword; an all-upper-case constant declared without the
keyword is still included in the symbol list, but with
`exported = false`, and every constant symbol arises from a constant
declaration match that was either export-prefixed or all-upper-case,
with the flag equal to the export-prefix bit of its match. -/
theorem const_symbols_export_flag (filePath content : String) (config : LanguageConfig) :
    (∀ m, m ∈ constDeclMatches content.toList → m.2.exported = true →
      symbolOfMatch "constant" filePath content.toList m ∈
        (analyzeFileWithRegex filePath content config).symbols ∧
      (symbolOfMatch "constant" filePath content.toList m).exported = true) ∧
    (∀ m, m ∈ constDeclMatches content.toList → m.2.exported = false →
      strToUpper m.2.name = m.2.name →
      symbolOfMatch "constant" filePath content.toList m ∈
        (analyzeFileWithRegex filePath content config).symbols ∧
      (symbolOfMatch "constant" filePath content.toList m).exported = false) ∧
    (∀ s, s ∈ (analyzeFileWithRegex filePath content config).symbols →
      s.type = "constant" →
      ∃ m, m ∈ constDeclMatches content.toList ∧
        s = symbolOfMatch "constant" filePath content.toList m ∧
        s.exported = m.2.exported ∧
        (m.2.exported = true ∨ strToUpper m.2.name = m.2.name)) := by
  refine ⟨?_, ?_, ?_⟩
  · intro m hm hexp
    refine ⟨?_, hexp⟩
    simp only [analyzeFileWithRegex, List.mem_append]
    right
    exact List.mem_map_of_mem _ (List.mem_filter.mpr ⟨hm, by simp [hexp]⟩)
  · intro m hm hexp hupper
    refine ⟨?_, hexp⟩
    simp only [analyzeFileWithRegex, List.mem_append]
    right
    exact List.mem_map_of_mem _ (List.mem_filter.mpr ⟨hm, by simp [hexp, hupper]⟩)
  · intro s hs htype
    simp only [analyzeFileWithRegex, List.mem_append] at hs
    rcases hs with ((((h | h) | h) | h) | h)
    · obtain ⟨m, _, rfl⟩ := List.mem_map.mp h
      simp [symbolOfMatch] at htype
    · obtain ⟨m, _, rfl⟩ := List.mem_map.mp h
      simp [symbolOfMatch] at htype
    · obtain ⟨m, _, rfl⟩ := List.mem_map.mp h
      simp [symbolOfMatch] at htype
    · obtain ⟨m, _, rfl⟩ := List.mem_map.mp h
      simp [symbolOfMatch] at htype
    · obtain ⟨m, hm, rfl⟩ := List.mem_map.mp h
      have hf := List.mem_filter.mp hm
      refine ⟨m, hf.1, rfl, rfl, ?_⟩
      have hp := hf.2
      simp only [Bool.or_eq_true, decide_eq_true_eq] at hp
      exact hp

/-- Claim C6 witness: the amended theorem applied to the content
`const FOO = 1`: the unexported upper-case constant match at index zero
yields the included, unexported symbol `FOO`. -/
theorem const_symbols_export_flag_witness :
    symbolOfMatch "constant" "config.ts" ("const FOO = 1").toList
      (0, ⟨11, "FOO", false⟩) ∈
      (analyzeFileWithRegex "config.ts" "const FOO = 1" typescriptConfig).symbols ∧
    (symbolOfMatch "constant" "config.ts" ("const FOO = 1").toList
      (0, ⟨11, "FOO", false⟩)).exported = false :=
  (const_symbols_export_flag "config.ts" "const FOO = 1" typescriptConfig).2.1
    (0, ⟨11, "FOO", false⟩) (by decide) (by decide) (by decide)

/-! ## Claim C7 -/

/-- Claim C7 (counterexample): the claim asserts that a module named
with route-, controller- or api- makes the inferred architecture type
`"layered"`; for a surface report with a module named exactly `routes`
the code instead infers `"web-application"`. -/
theorem routes_module_infers_web_application :
    (buildSummary surfRoutesModule [] none).architectureType = "web-application" ∧
    (buildSummary surfRoutesModule [] none).architectureType ≠ "layered" ∧
    surfRoutesModule.identifiedModules.map (fun m => strToLower m.name) = ["routes"] := by
  refine ⟨by decide, by decide, by decide⟩

/-- Claim C7 (amended): without a semantic report, the architecture
type is inferred from exact lowercase module names: a module named
`controllers`, `routes` or `api` gives `"web-application"`; otherwise a
module named `components` or `views` gives `"component-based"` (with no
check that the repository is frontend-typed); otherwise a module named
`lib` or `pkg` gives `"library"`; otherwise `"unknown"`. -/
theorem buildSummary_architecture_inference (surface : SurfaceAnalysis)
    (structural : List StructuralAnalysis) :
    ((surface.identifiedModules.map (fun m => strToLower m.name)).any
        (fun m => (["controllers", "routes", "api"] : List String).contains m) = true →
      (buildSummary surface structural none).architectureType = "web-application") ∧
    ((surface.identifiedModules.map (fun m => strToLower m.name)).any
        (fun m => (["controllers", "routes", "api"] : List String).contains m) = false →
      (surface.identifiedModules.map (fun m => strToLower m.name)).any
        (fun m => (["components", "views"] : List String).contains m) = true →
      (buildSummary surface structural none).architectureType = "component-based") ∧
    ((surface.identifiedModules.map (fun m => strToLower m.name)).any
        (fun m => (["controllers", "routes", "api"] : List String).contains m) = false →
      (surface.identifiedModules.map (fun m => strToLower m.name)).any
        (fun m => (["components", "views"] : List String).contains m) = false →
      (surface.identifiedModules.map (fun m => strToLower m.name)).any
        (fun m => (["lib", "pkg"] : List String).contains m) = true →
      (buildSummary surface structural none).architectureType = "library") ∧
    ((surface.identifiedModules.map (fun m => strToLower m.name)).any
        (fun m => (["controllers", "routes", "api"] : List String).contains m) = false →
      (surface.identifiedModules.map (fun m => strToLower m.name)).any
        (fun m => (["components", "views"] : List String).contains m) = false →
      (surface.identifiedModules.map (fun m => strToLower m.name)).any
        (fun m => (["lib", "pkg"] : List String).contains m) = false →
      (buildSummary surface structural none).architectureType = "unknown") := by
  refine ⟨?_, ?_, ?_, ?_⟩
  · intro h1
    simp only [buildSummary]
    rw [if_pos h1]
  · intro h1 h2
    simp only [buildSummary]
    rw [if_neg (by simp only [h1]; exact Bool.false_ne_true), if_pos h2]
  · intro h1 h2 h3
    simp only [buildSummary]
    rw [if_neg (by simp only [h1]; exact Bool.false_ne_true), if_neg (by simp only [h2]; exact Bool.false_ne_true), if_pos h3]
  · intro h1 h2 h3
    simp only [buildSummary]
    rw [if_neg (by simp only [h1]; exact Bool.false_ne_true), if_neg (by simp only [h2]; exact Bool.false_ne_true), if_neg (by simp only [h3]; exact Bool.false_ne_true)]

/-- Claim C7 witness: the four branches of the amended theorem at
concrete one-module surface reports (`routes`, `components`, `lib`, and
an unmatched name). -/
theorem buildSummary_architecture_inference_witness :
    (buildSummary surfRoutesModule [] none).architectureType = "web-application" ∧
    (buildSummary ⟨rmapEmpty, [⟨"components", "components", "unknown", 1, "TypeScript"⟩], 0, ⟨0, 0⟩⟩
      [] none).architectureType = "component-based" ∧
    (buildSummary ⟨rmapEmpty, [⟨"lib", "lib", "core", 1, "Go"⟩], 0, ⟨0, 0⟩⟩
      [] none).architectureType = "library" ∧
    (buildSummary ⟨rmapEmpty, [⟨"docs", "docs", "unknown", 1, "Markdown"⟩], 0, ⟨0, 0⟩⟩
      [] none).architectureType = "unknown" :=
  ⟨(buildSummary_architecture_inference surfRoutesModule []).1 (by decide),
   (buildSummary_architecture_inference _ []).2.1 (by decide) (by decide),
   (buildSummary_architecture_inference _ []).2.2.1 (by decide) (by decide) (by decide),
   (buildSummary_architecture_inference _ []).2.2.2 (by decide) (by decide) (by decide)⟩

/-! ## Claim C1 -/

/-- Claim C1 (counterexample): a surface-depth run over a repository
with one identified module returns a result whose `sections` array is
not empty — it holds one (non-expandable) module stub — refuting the
claimed empty `sections` array. -/
theorem surface_run_sections_not_empty :
    (orchestrateAnalysis "/repo" "a1" { depth := some .surface } surfOneModule []
      okExtract none false (.error "unused") emptyCache 1000).result.sections ≠ [] ∧
    (orchestrateAnalysis "/repo" "a1" { depth := some .surface } surfOneModule []
      okExtract none false (.error "unused") emptyCache 1000).result.sections.length = 1 := by
  decide

/-- Claim C1 (amended): a surface-depth run invokes neither the
structural nor the semantic phase, and its result `sections` array
holds one non-expandable module stub per identified module (up to ten),
each of type `module` with `canExpand = false`; the array is empty
exactly when no module was identified. -/
theorem surface_run_skips_phases
    (repoPath analysisId : String) (options : AnalysisOptions)
    (surface : SurfaceAnalysis) (fileContents : List (String × String))
    (extract : ModuleIdentification → List (String × String) →
      Except String StructuralAnalysis)
    (structuralPhaseError : Option String) (hasGeminiKey : Bool)
    (geminiCall : Except String SemanticAnalysis)
    (cache : AnalysisCache AnalysisCacheData) (now : Nat)
    (hd : options.depth.getD .standard = .surface) :
    (orchestrateAnalysis repoPath analysisId options surface fileContents extract
      structuralPhaseError hasGeminiKey geminiCall cache now).structuralInvoked = false ∧
    (orchestrateAnalysis repoPath analysisId options surface fileContents extract
      structuralPhaseError hasGeminiKey geminiCall cache now).semanticInvoked = false ∧
    (orchestrateAnalysis repoPath analysisId options surface fileContents extract
      structuralPhaseError hasGeminiKey geminiCall cache now).result.sections =
      (surface.identifiedModules.take 10).map (moduleSectionFor []) ∧
    (∀ s ∈ (orchestrateAnalysis repoPath analysisId options surface fileContents extract
      structuralPhaseError hasGeminiKey geminiCall cache now).result.sections,
      s.canExpand = false ∧ s.type = "module") ∧
    ((orchestrateAnalysis repoPath analysisId options surface fileContents extract
      structuralPhaseError hasGeminiKey geminiCall cache now).result.sections = [] ↔
      surface.identifiedModules = []) := by
  have hsec : (orchestrateAnalysis repoPath analysisId options surface fileContents extract
      structuralPhaseError hasGeminiKey geminiCall cache now).result.sections =
      (surface.identifiedModules.take 10).map (moduleSectionFor []) := by
    simp only [orchestrateAnalysis]
    rw [if_pos hd]
    simp [buildAnalysisResult, buildExpandableSections]
  refine ⟨?_, ?_, hsec, ?_, ?_⟩
  · simp only [orchestrateAnalysis]
    rw [if_pos hd]
  · simp only [orchestrateAnalysis]
    rw [if_pos hd]
  · intro s hs
    rw [hsec] at hs
    obtain ⟨m, _, rfl⟩ := List.mem_map.mp hs
    exact ⟨rfl, rfl⟩
  · rw [hsec]
    cases surface.identifiedModules <;> simp

/-- Claim C1 witness: the amended theorem at the one-module fixture. -/
theorem surface_run_skips_phases_witness :
    (orchestrateAnalysis "/repo" "a1w" { depth := some .surface } surfOneModule []
      okExtract none false (.error "unused") emptyCache 1000).structuralInvoked = false ∧
    (orchestrateAnalysis "/repo" "a1w" { depth := some .surface } surfOneModule []
      okExtract none false (.error "unused") emptyCache 1000).semanticInvoked = false ∧
    (orchestrateAnalysis "/repo" "a1w" { depth := some .surface } surfOneModule []
      okExtract none false (.error "unused") emptyCache 1000).result.sections =
      (surfOneModule.identifiedModules.take 10).map (moduleSectionFor []) :=
  have h := surface_run_skips_phases "/repo" "a1w" { depth := some .surface }
    surfOneModule [] okExtract none false (.error "unused") emptyCache 1000 (by decide)
  ⟨h.1, h.2.1, h.2.2.1⟩

/-! ## Claim C2 -/

/-- Claim C2 (counterexample): with two modules `alpha` and `beta` whose
files are loaded and an extraction that throws exactly on `alpha`, the
merged structural list holds only the `beta` report — but the result
carries no `partialFailures` entry at all, refuting the claimed single
entry naming the module. -/
theorem module_throw_produces_no_partial_failure :
    (orchestrateAnalysis "/repo" "a2" {} surfTwoModules
      [("alpha/a.go", "func a() \x7b\x7d\n"), ("beta/b.go", "func b() \x7b\x7d\n")]
      alphaThrowsExtract none false (.error "unused") emptyCache 1000).structural =
      [⟨"beta", [], [], [], ⟨1, 0, 0, 0⟩⟩] ∧
    (orchestrateAnalysis "/repo" "a2" {} surfTwoModules
      [("alpha/a.go", "func a() \x7b\x7d\n"), ("beta/b.go", "func b() \x7b\x7d\n")]
      alphaThrowsExtract none false (.error "unused") emptyCache 1000).result.partialFailures =
      none := by
  decide

/-- Claim C2 (amended): a module whose structural extraction throws is
excluded from the merged report list and the other module reports are
still produced, but no `partialFailures` entry records it: with no
phase-level structural error, every `partialFailures` entry of the run
has layer `semantic` (the per-module failure is only tracked on the
orchestrator task list). -/
theorem module_extraction_throw_excluded
    (modules : List ModuleIdentification) (fileContents : List (String × String))
    (extract : ModuleIdentification → List (String × String) →
      Except String StructuralAnalysis)
    (m : ModuleIdentification) (err : String)
    (_hm : m ∈ modules)
    (hthrow : extract m (moduleFilesFor fileContents m) = .error err)
    (hpaths : ∀ m' files r, extract m' files = .ok r → r.modulePath = m'.path)
    (hdistinct : ∀ m' ∈ modules, m'.path = m.path → m' = m) :
    (∀ r ∈ analyzeModulesStructurally modules fileContents extract,
      r.modulePath ≠ m.path) ∧
    (∀ m' ∈ modules, ∀ r, extract m' (moduleFilesFor fileContents m') = .ok r →
      (moduleFilesFor fileContents m').isEmpty = false →
      r ∈ analyzeModulesStructurally modules fileContents extract) ∧
    (∀ repoPath analysisId options surface hasGeminiKey geminiCall cache now pfs,
      (orchestrateAnalysis repoPath analysisId options surface fileContents extract
        none hasGeminiKey geminiCall cache now).result.partialFailures = some pfs →
      ∀ pf ∈ pfs, pf.layer = "semantic") := by
  have main : ∀ r ∈ analyzeModulesStructurally modules fileContents extract,
      ∃ m₀ ∈ modules, extract m₀ (moduleFilesFor fileContents m₀) = .ok r := by
    intro r hr
    obtain ⟨m₀, hm₀, hf⟩ := List.mem_filterMap.mp hr
    refine ⟨m₀, hm₀, ?_⟩
    by_cases hempty : (moduleFilesFor fileContents m₀).isEmpty
    · simp [analyzeModulesStructurally, hempty] at hf
    · rcases hex : extract m₀ (moduleFilesFor fileContents m₀) with e | r₀
      · simp [analyzeModulesStructurally, hempty, hex] at hf
      · simp only [analyzeModulesStructurally, hempty, hex] at hf
        simp at hf
        exact congrArg Except.ok hf
  refine ⟨?_, ?_, ?_⟩
  · intro r hr hpath_eq
    obtain ⟨m₀, hm₀, hok⟩ := main r hr
    have hrp : r.modulePath = m₀.path := hpaths m₀ _ r hok
    have hmm : m₀ = m := hdistinct m₀ hm₀ (by rw [← hrp, hpath_eq])
    rw [hmm, hthrow] at hok
    exact Except.noConfusion hok
  · intro m' hm' r hok hne
    refine List.mem_filterMap.mpr ⟨m', hm', ?_⟩
    simp [hne, hok]
  · intro repoPath analysisId options surface hasGeminiKey geminiCall cache now pfs
      hpfs pf hpf
    by_cases hd : options.depth.getD AnalysisDepth.standard = AnalysisDepth.surface
    · simp only [orchestrateAnalysis] at hpfs
      rw [if_pos hd] at hpfs
      simp [buildAnalysisResult] at hpfs
    · simp only [orchestrateAnalysis] at hpfs
      rw [if_neg hd] at hpfs
      simp only [structuralPhaseRun, List.nil_append] at hpfs
      by_cases hX : ((semanticPhaseRun (includeSemanticsOf options) surface.complexity
          hasGeminiKey geminiCall).2.1).isEmpty
      · simp [hX] at hpfs
      · simp [hX] at hpfs
        rw [← hpfs] at hpf
        revert hpf
        simp only [semanticPhaseRun]
        by_cases hin : includeSemanticsOf options = true
        · simp only [hin, if_true]
          rcases hrun : semanticAnalysisRun hasGeminiKey geminiCall with ⟨exc, called⟩
          rcases exc with e | s
          · intro hmem
            simp at hmem
            rw [hmem]
          · intro hmem
            simp at hmem
        · simp only [hin]
          intro hmem
          simp at hmem

/-- Claim C2 witness: the amended theorem at the two-module fixture
where `alpha` throws: its path is excluded from the merged list, the
`beta` report is included, and the run has no structural
`partialFailures` entry. -/
theorem module_extraction_throw_excluded_witness :
    (∀ r ∈ analyzeModulesStructurally surfTwoModules.identifiedModules
      [("alpha/a.go", "func a() \x7b\x7d\n"), ("beta/b.go", "func b() \x7b\x7d\n")]
      alphaThrowsExtract, r.modulePath ≠ "alpha") ∧
    (⟨"beta", [], [], [], ⟨1, 0, 0, 0⟩⟩ : StructuralAnalysis) ∈
      analyzeModulesStructurally surfTwoModules.identifiedModules
      [("alpha/a.go", "func a() \x7b\x7d\n"), ("beta/b.go", "func b() \x7b\x7d\n")]
      alphaThrowsExtract := by
  have h := module_extraction_throw_excluded surfTwoModules.identifiedModules
    [("alpha/a.go", "func a() \x7b\x7d\n"), ("beta/b.go", "func b() \x7b\x7d\n")]
    alphaThrowsExtract ⟨"alpha", "alpha", "unknown", 1, "Go"⟩ "boom"
    (by decide) rfl
    (fun m' files r hok => by
      revert hok
      simp only [alphaThrowsExtract]
      by_cases hp : m'.path = "alpha"
      · simp [hp]
      · simp only [hp, if_false]
        intro hok
        cases hok
        rfl)
    (by decide)
  exact ⟨h.1, h.2.1 ⟨"beta", "beta", "unknown", 1, "Go"⟩ (by decide)
    ⟨"beta", [], [], [], ⟨1, 0, 0, 0⟩⟩ rfl (by decide)⟩

/-! ## Claim C3 -/

/-- Claim C3 (confirmed): when the semantic phase is requested and the
semantic call fails, the run completes with `semantic` absent, the
structural list exactly as the structural phase produced it, the
repository map and sections derived from surface and structural data
only, and a `partialFailures` entry of layer `semantic` carrying the
failure text (and no other `semantic` entry); the no-credential
condition is raised before the Gemini transport is invoked, with the
no-credential message as the failure text. -/
theorem semantic_failure_keeps_run_alive
    (repoPath analysisId : String) (options : AnalysisOptions)
    (surface : SurfaceAnalysis) (fileContents : List (String × String))
    (extract : ModuleIdentification → List (String × String) →
      Except String StructuralAnalysis)
    (structuralPhaseError : Option String) (hasGeminiKey : Bool)
    (geminiCall : Except String SemanticAnalysis)
    (cache : AnalysisCache AnalysisCacheData) (now : Nat) (e : String)
    (hd : options.depth.getD .standard ≠ .surface)
    (hinc : includeSemanticsOf options = true)
    (hfail : (semanticAnalysisRun hasGeminiKey geminiCall).1 = .error e) :
    (orchestrateAnalysis repoPath analysisId options surface fileContents extract
      structuralPhaseError hasGeminiKey geminiCall cache now).semantic = none ∧
    (orchestrateAnalysis repoPath analysisId options surface fileContents extract
      structuralPhaseError hasGeminiKey geminiCall cache now).semanticInvoked = true ∧
    (orchestrateAnalysis repoPath analysisId options surface fileContents extract
      structuralPhaseError hasGeminiKey geminiCall cache now).structural =
      (structuralPhaseRun (modulesToAnalyzeOf surface (tokenBudgetOf options))
        fileContents extract structuralPhaseError).1 ∧
    (orchestrateAnalysis repoPath analysisId options surface fileContents extract
      structuralPhaseError hasGeminiKey geminiCall cache now).result.repositoryMap =
      surface.repositoryMap ∧
    (orchestrateAnalysis repoPath analysisId options surface fileContents extract
      structuralPhaseError hasGeminiKey geminiCall cache now).result.sections =
      buildExpandableSections surface
        (structuralPhaseRun (modulesToAnalyzeOf surface (tokenBudgetOf options))
          fileContents extract structuralPhaseError).1 none ∧
    (∃ pfs, (orchestrateAnalysis repoPath analysisId options surface fileContents extract
        structuralPhaseError hasGeminiKey geminiCall cache now).result.partialFailures =
        some pfs ∧
      (⟨"semantic", e⟩ : PartialFailure) ∈ pfs ∧
      pfs.filter (fun pf => pf.layer == "semantic") = [⟨"semantic", e⟩]) ∧
    (hasGeminiKey = false →
      (orchestrateAnalysis repoPath analysisId options surface fileContents extract
        structuralPhaseError hasGeminiKey geminiCall cache now).geminiCalled = false ∧
      e = NO_CREDENTIAL_MESSAGE) := by
  have hrun : semanticAnalysisRun hasGeminiKey geminiCall =
      (.error e, (semanticAnalysisRun hasGeminiKey geminiCall).2) := by
    rcases hp : semanticAnalysisRun hasGeminiKey geminiCall with ⟨exc, called⟩
    rw [hp] at hfail
    simp at hfail
    rw [hfail]
  have hsem : semanticPhaseRun (includeSemanticsOf options) surface.complexity
      hasGeminiKey geminiCall =
      (none, [⟨"semantic", e⟩], (semanticAnalysisRun hasGeminiKey geminiCall).2, []) := by
    rw [semanticPhaseRun, hinc]
    simp only [if_true]
    rw [hrun]
  refine ⟨?_, ?_, ?_, ?_, ?_, ?_, ?_⟩
  · simp only [orchestrateAnalysis]
    rw [if_neg hd]
    simp only [hsem]
  · simp only [orchestrateAnalysis]
    rw [if_neg hd]
    simp only [hinc]
  · simp only [orchestrateAnalysis]
    rw [if_neg hd]
  · simp only [orchestrateAnalysis]
    rw [if_neg hd]
    simp [buildAnalysisResult]
  · simp only [orchestrateAnalysis]
    rw [if_neg hd]
    simp only [hsem]
    simp [buildAnalysisResult]
  · refine ⟨(structuralPhaseRun (modulesToAnalyzeOf surface (tokenBudgetOf options))
      fileContents extract structuralPhaseError).2 ++ [⟨"semantic", e⟩], ?_, ?_, ?_⟩
    · simp only [orchestrateAnalysis]
      rw [if_neg hd]
      simp only [hsem]
      rcases structuralPhaseError with _ | er <;> simp [structuralPhaseRun]
    · exact List.mem_append_right _ (List.mem_singleton.mpr rfl)
    · rcases structuralPhaseError with _ | er <;> simp [structuralPhaseRun]
  · intro hk
    constructor
    · simp only [orchestrateAnalysis]
      rw [if_neg hd]
      simp only [hsem]
      rw [hk]
      rfl
    · rw [hk] at hfail
      simp [semanticAnalysisRun] at hfail
      exact hfail.symm

/-- Claim C3 witness: the theorem at depth `deep` with no credential
configured: the run yields `semantic = none` and the single
`partialFailures` entry carrying the no-credential text, and the Gemini
transport was never invoked. -/
theorem semantic_failure_keeps_run_alive_witness :
    (orchestrateAnalysis "/repo" "a3" { depth := some .deep } surfOneModule []
      okExtract none false (.error "unused") emptyCache 1000).semantic = none ∧
    (orchestrateAnalysis "/repo" "a3" { depth := some .deep } surfOneModule []
      okExtract none false (.error "unused") emptyCache 1000).geminiCalled = false :=
  have h := semantic_failure_keeps_run_alive "/repo" "a3" { depth := some .deep }
    surfOneModule [] okExtract none false (.error "unused") emptyCache 1000
    NO_CREDENTIAL_MESSAGE (by decide) (by decide) rfl
  ⟨h.1, (h.2.2.2.2.2.2 rfl).1⟩

/-! ## Claim C8 -/

/-- The accumulator of `evictScan` only improves: a returned candidate
is bounded by the starting candidate and by every creation time in the
scanned list, and it is either drawn from the list or is the starting
candidate itself. -/
theorem evictScan_spec {T : Type} :
    ∀ (es : List (CacheEntry T)) (best : Option (String × Nat)) (k : String) (t : Nat),
    evictScan es best = some (k, t) →
    ((∃ e ∈ es, e.key = k ∧ e.createdAt = t) ∨ best = some (k, t)) ∧
    (∀ e ∈ es, t ≤ e.createdAt) ∧
    (∀ k₀ t₀, best = some (k₀, t₀) → t ≤ t₀) := by
  intro es
  induction es with
  | nil =>
    intro best k t h
    refine ⟨Or.inr h, by simp, ?_⟩
    intro k₀ t₀ hb
    have hbb : best = some (k, t) := h
    rw [hbb] at hb
    cases hb
    exact le_refl t
  | cons e rest ih =>
    intro best k t h
    cases best with
    | none =>
      have h' : evictScan rest (some (e.key, e.createdAt)) = some (k, t) := h
      obtain ⟨hor, hmin, hbound⟩ := ih (some (e.key, e.createdAt)) k t h'
      have hte : t ≤ e.createdAt := hbound e.key e.createdAt rfl
      refine ⟨?_, ?_, by simp⟩
      · rcases hor with ⟨e', he', hk, ht⟩ | heq
        · exact Or.inl ⟨e', List.mem_cons_of_mem e he', hk, ht⟩
        · cases heq
          exact Or.inl ⟨e, List.mem_cons_self e rest, rfl, rfl⟩
      · intro e' he'
        rcases List.mem_cons.mp he' with rfl | hmem
        · exact hte
        · exact hmin e' hmem
    | some p =>
      obtain ⟨k₀, t₀⟩ := p
      by_cases hlt : e.createdAt < t₀
      · have h' : evictScan rest (some (e.key, e.createdAt)) = some (k, t) := by
          have : evictScan (e :: rest) (some (k₀, t₀)) =
              evictScan rest (some (e.key, e.createdAt)) := by
            simp [evictScan, hlt]
          rw [← this]
          exact h
        obtain ⟨hor, hmin, hbound⟩ := ih (some (e.key, e.createdAt)) k t h'
        have hte : t ≤ e.createdAt := hbound e.key e.createdAt rfl
        refine ⟨?_, ?_, ?_⟩
        · rcases hor with ⟨e', he', hk, ht⟩ | heq
          · exact Or.inl ⟨e', List.mem_cons_of_mem e he', hk, ht⟩
          · cases heq
            exact Or.inl ⟨e, List.mem_cons_self e rest, rfl, rfl⟩
        · intro e' he'
          rcases List.mem_cons.mp he' with rfl | hmem
          · exact hte
          · exact hmin e' hmem
        · intro k₁ t₁ hb
          cases hb
          exact le_of_lt (lt_of_le_of_lt hte hlt)
      · have h' : evictScan rest (some (k₀, t₀)) = some (k, t) := by
          have : evictScan (e :: rest) (some (k₀, t₀)) =
              evictScan rest (some (k₀, t₀)) := by
            simp [evictScan, hlt]
          rw [← this]
          exact h
        obtain ⟨hor, hmin, hbound⟩ := ih (some (k₀, t₀)) k t h'
        have htt : t ≤ t₀ := hbound k₀ t₀ rfl
        refine ⟨?_, ?_, ?_⟩
        · rcases hor with ⟨e', he', hk, ht⟩ | heq
          · exact Or.inl ⟨e', List.mem_cons_of_mem e he', hk, ht⟩
          · exact Or.inr heq
        · intro e' he'
          rcases List.mem_cons.mp he' with rfl | hmem
          · exact le_trans htt (Nat.le_of_not_lt hlt)
          · exact hmin e' hmem
        · intro k₁ t₁ hb
          cases hb
          exact htt

/-- A non-empty accumulator keeps `evictScan` from returning `none`. -/
theorem evictScan_some_of {T : Type} :
    ∀ (es : List (CacheEntry T)) (p : String × Nat),
    ∃ q, evictScan es (some p) = some q := by
  intro es
  induction es with
  | nil => exact fun p => ⟨p, rfl⟩
  | cons e rest ih =>
    intro ⟨k₀, t₀⟩
    by_cases hlt : e.createdAt < t₀
    · obtain ⟨q, hq⟩ := ih (e.key, e.createdAt)
      exact ⟨q, by simp [evictScan, hlt, hq]⟩
    · obtain ⟨q, hq⟩ := ih (k₀, t₀)
      exact ⟨q, by simp [evictScan, hlt, hq]⟩

/-- Claim C8 (confirmed): the two cache invariants. Inserting into a
cache at capacity evicts exactly one entry whose creation time is
minimal (never a newer one), the remaining entries and the fresh entry
making up the new state; `get` on an entry whose expiry lies strictly in
the past deletes it and misses; and any value `get` returns comes from
an unexpired entry, so no operation returns an expired entry. -/
theorem analysisCache_eviction_and_expiry :
    (∀ (T : Type) (c : AnalysisCache T) (now : Nat) (source : String) (data : T)
      (commitHash : Option String) (depth : AnalysisDepth),
      c.entries.length ≥ MAX_CACHE_ENTRIES →
      ∃ victim, victim ∈ c.entries ∧
        (∀ e ∈ c.entries, victim.createdAt ≤ e.createdAt) ∧
        (c.set now source data commitHash depth).entries =
          mapSet (c.entries.filter (fun e => e.key != victim.key))
            ⟨AnalysisCache.generateKey source commitHash, data, now, now + c.ttlMs,
             ⟨source, commitHash, depth⟩⟩) ∧
    (∀ (T : Type) (c : AnalysisCache T) (now : Nat) (source : String)
      (commitHash : Option String) (entry : CacheEntry T),
      c.entries.find?
        (fun e => e.key == AnalysisCache.generateKey source commitHash) = some entry →
      now > entry.expiresAt →
      c.get now source commitHash =
        (none, { c with entries :=
          c.entries.filter (fun x => x.key != AnalysisCache.generateKey source commitHash) })) ∧
    (∀ (T : Type) (c : AnalysisCache T) (now : Nat) (source : String)
      (commitHash : Option String) (v : T),
      (c.get now source commitHash).1 = some v →
      ∃ e ∈ c.entries, e.value = v ∧ ¬ now > e.expiresAt) := by
  refine ⟨?_, ?_, ?_⟩
  · intro T c now source data commitHash depth hlen
    have hex : ∃ q, evictScan c.entries none = some q := by
      cases hes : c.entries with
      | nil =>
        rw [hes] at hlen
        simp [MAX_CACHE_ENTRIES] at hlen
      | cons e₀ rest =>
        obtain ⟨q, hq⟩ := evictScan_some_of rest (e₀.key, e₀.createdAt)
        exact ⟨q, hq⟩
    obtain ⟨⟨k, t⟩, hscan⟩ := hex
    obtain ⟨hor, hmin, _⟩ := evictScan_spec c.entries none k t hscan
    rcases hor with ⟨victim, hvmem, hvk, hvt⟩ | heq
    · refine ⟨victim, hvmem, ?_, ?_⟩
      · intro e he
        rw [hvt]
        exact hmin e he
      · simp only [AnalysisCache.set, if_pos hlen, AnalysisCache.evictOldest, hscan, hvk]
    · cases heq
  · intro T c now source commitHash entry hfind hexp
    simp only [AnalysisCache.get, hfind, if_pos hexp]
  · intro T c now source commitHash v hget
    rcases hfind : c.entries.find?
        (fun e => e.key == AnalysisCache.generateKey source commitHash) with _ | e
    · simp only [AnalysisCache.get, hfind] at hget
      cases hget
    · by_cases hexp : now > e.expiresAt
      · simp only [AnalysisCache.get, hfind, if_pos hexp] at hget
        cases hget
      · simp only [AnalysisCache.get, hfind, if_neg hexp] at hget
        cases hget
        exact ⟨e, List.mem_of_find?_eq_some hfind, rfl, hexp⟩

/-- Claim C8 witness: the invariants at concrete caches: inserting a
51st entry into the fifty-entry cache evicts an oldest entry; `get` at
time 11 on the entry expiring at time 10 deletes it and misses; no
value returned by `get` at time 11 on the live cache comes from an
expired entry. -/
theorem analysisCache_eviction_and_expiry_witness :
    (∃ victim, victim ∈ bigCache.entries ∧
      (∀ e ∈ bigCache.entries, victim.createdAt ≤ e.createdAt) ∧
      (bigCache.set 5000 "src" 99 none .standard).entries =
        mapSet (bigCache.entries.filter (fun e => e.key != victim.key))
          ⟨AnalysisCache.generateKey "src" none, 99, 5000, 5000 + bigCache.ttlMs,
           ⟨"src", none, .standard⟩⟩) ∧
    (expiredNatCache.get 11 "src" none =
      (none, { expiredNatCache with entries :=
        expiredNatCache.entries.filter (fun x => x.key != AnalysisCache.generateKey "src" none) })) ∧
    (∃ e ∈ liveNatCache.entries, e.value = 42 ∧ ¬ (11 : Nat) > e.expiresAt) :=
  ⟨analysisCache_eviction_and_expiry.1 Nat bigCache 5000 "src" 99 none .standard
    (by decide),
   analysisCache_eviction_and_expiry.2.1 Nat expiredNatCache 11 "src" none
    ⟨"src", 7, 0, 10, ⟨"src", none, .standard⟩⟩ (by decide) (by decide),
   analysisCache_eviction_and_expiry.2.2 Nat liveNatCache 11 "src" none 42 (by decide)⟩

/-! ## Claim C9 -/

/-- Claim C9 (confirmed): a surface-depth run returns before the cache
insertion, leaving the cache untouched; since the analysis id of the
run is fresh (`generateAnalysisId` concatenates the timestamp with a
random UUID slice), a follow-up `expandAnalysisSection` for it always
misses the cache and reports the not-found error with
`section = none`, even right after the run succeeded. -/
theorem surface_run_not_cached
    (repoPath analysisId : String) (options : AnalysisOptions)
    (surface : SurfaceAnalysis) (fileContents : List (String × String))
    (extract : ModuleIdentification → List (String × String) →
      Except String StructuralAnalysis)
    (structuralPhaseError : Option String) (hasGeminiKey : Bool)
    (geminiCall : Except String SemanticAnalysis)
    (cache : AnalysisCache AnalysisCacheData) (now : Nat)
    (hd : options.depth.getD .standard = .surface)
    (hfresh : ∀ e ∈ cache.entries, e.value.result.analysisId ≠ analysisId) :
    (orchestrateAnalysis repoPath analysisId options surface fileContents extract
      structuralPhaseError hasGeminiKey geminiCall cache now).cache = cache ∧
    (∀ (now₂ : Nat) (sectionId level : String),
      expandAnalysisSection
        (orchestrateAnalysis repoPath analysisId options surface fileContents extract
          structuralPhaseError hasGeminiKey geminiCall cache now).cache
        now₂ analysisId sectionId level =
      ⟨none, some ("Analysis " ++ analysisId ++
        " not found in cache. It may have expired."), cache⟩) := by
  have hcache : (orchestrateAnalysis repoPath analysisId options surface fileContents
      extract structuralPhaseError hasGeminiKey geminiCall cache now).cache = cache := by
    simp only [orchestrateAnalysis]
    rw [if_pos hd]
  refine ⟨hcache, ?_⟩
  intro now₂ sectionId level
  rw [hcache]
  have hfind : cache.entries.find?
      (fun e => e.value.result.analysisId == analysisId) = none := by
    refine List.find?_eq_none.mpr ?_
    intro e he
    simp only [beq_iff_eq]
    exact hfresh e he
  simp only [expandAnalysisSection, AnalysisCache.getByAnalysisId, hfind]

/-- Claim C9 witness: after a surface run against the empty cache, the
expand call with the fresh analysis id reports the not-found error. -/
theorem surface_run_not_cached_witness :
    (orchestrateAnalysis "/repo" "a9" { depth := some .surface } surfOneModule []
      okExtract none false (.error "unused") emptyCache 1000).cache = emptyCache ∧
    expandAnalysisSection
      (orchestrateAnalysis "/repo" "a9" { depth := some .surface } surfOneModule []
        okExtract none false (.error "unused") emptyCache 1000).cache
      1001 "a9" "module_src" "detail" =
    ⟨none, some ("Analysis a9 not found in cache. It may have expired."), emptyCache⟩ :=
  have h := surface_run_not_cached "/repo" "a9" { depth := some .surface }
    surfOneModule [] okExtract none false (.error "unused") emptyCache 1000
    (by decide) (fun e he => absurd he (List.not_mem_nil e))
  ⟨h.1, h.2 1001 "module_src" "detail"⟩

/-! ## Claim C10 -/

/-- A list is a boolean prefix of itself followed by anything. -/
theorem isPrefixOf_append_self (l₁ l₂ : List Char) : l₁.isPrefixOf (l₁ ++ l₂) = true := by
  induction l₁ with
  | nil => simp
  | cons a t ih => simp [List.isPrefixOf, ih]

/-- Replacing the first occurrence of a pattern in a list that starts
with that pattern strips exactly the pattern. -/
theorem replaceFirstList_of_pre (pat rep xs : List Char) :
    replaceFirstList pat rep (pat ++ xs) = rep ++ xs := by
  cases pat with
  | nil =>
    cases xs with
    | nil => simp [replaceFirstList]
    | cons c rest => simp [replaceFirstList]
  | cons p ps =>
    have hpre : (p :: ps).isPrefixOf ((p :: ps) ++ xs) = true :=
      isPrefixOf_append_self (p :: ps) xs
    show replaceFirstList (p :: ps) rep (p :: (ps ++ xs)) = rep ++ xs
    simp only [replaceFirstList, hpre, if_true]
    simp

/-- Stripping the `module_` tag of a built section id recovers the
sanitized path. -/
theorem replace_module_tag (s : String) :
    replaceFirstOcc ("module_" ++ s) "module_" "" = s := by
  show String.mk (replaceFirstList "module_".toList [] ("module_".toList ++ s.toList)) = s
  rw [replaceFirstList_of_pre]
  rfl

/-- The sanitize / un-sanitize round trip acts characterwise: alphanumeric
characters survive, every other character (including `/`) comes back as
`/`. -/
theorem roundTrip_eq_map (p : String) :
    modulePathOfSectionId ("module_" ++ sanitizeSectionPath p) =
    String.mk (p.toList.map (fun c => if c.isAlphanum then c else '/')) := by
  unfold modulePathOfSectionId
  rw [replace_module_tag]
  show String.mk ((p.toList.map (fun c => if c.isAlphanum then c else '_')).map
    (fun c => if c = '_' then '/' else c)) = _
  rw [List.map_map]
  congr 1
  refine List.map_congr_left ?_
  intro c _
  by_cases halnum : c.isAlphanum
  · have hne : c ≠ '_' := by
      intro h
      rw [h] at halnum
      exact absurd halnum (by decide)
    simp [halnum, hne]
  · simp [halnum]

/-- Claim C10 (confirmed): the module-section id round trip recovers
the module path exactly when the path consists of alphanumeric
characters and `/` only; a path containing any other character (such as
`_`, `-` or `.`) comes back changed, and `expandSection` on such a
module section then finds no structural report (module paths are single
top-level directory names and contain no `/`, while the reconstructed
path contains one at the position of the offending character) and
returns the copied section with neither the requested `detail` nor the
`full` payload added. -/
theorem moduleId_roundTrip
    :
    (∀ p : String, (∀ c ∈ p.toList, c.isAlphanum = true ∨ c = '/') →
      modulePathOfSectionId ("module_" ++ sanitizeSectionPath p) = p) ∧
    (∀ (p : String) (c : Char), c ∈ p.toList → c.isAlphanum = false → c ≠ '/' →
      modulePathOfSectionId ("module_" ++ sanitizeSectionPath p) ≠ p) ∧
    (∀ (result : AnalysisResultV2) (sectionId level : String)
      (structural : List StructuralAnalysis) (semantic : Option SemanticAnalysis)
      (sec : ExpandableSection) (p : String) (c : Char),
      result.sections.find? (fun s => s.id = sectionId) = some sec →
      sec.canExpand = true → sec.type = "module" →
      sec.id = "module_" ++ sanitizeSectionPath p →
      c ∈ p.toList → c.isAlphanum = false → c ≠ '/' →
      (∀ r ∈ structural, ('/' : Char) ∉ r.modulePath.toList) →
      expandSection result sectionId level structural semantic = some sec) := by
  refine ⟨?_, ?_, ?_⟩
  · intro p hp
    rw [roundTrip_eq_map]
    have hmap : p.toList.map (fun c => if c.isAlphanum then c else '/') = p.toList := by
      conv_rhs => rw [← List.map_id p.toList]
      refine List.map_congr_left ?_
      intro c hc
      rcases hp c hc with h | rfl
      · simp [h]
      · simp
    rw [hmap]
    rfl
  · intro p c hc halnum hslash heq
    rw [roundTrip_eq_map] at heq
    have hlist : p.toList.map (fun ch => if ch.isAlphanum then ch else '/') = p.toList :=
      congrArg String.toList heq
    obtain ⟨l₁, l₂, hdecomp⟩ := List.append_of_mem hc
    rw [hdecomp, List.map_append, List.map_cons] at hlist
    obtain ⟨-, h₂⟩ := List.append_inj hlist (List.length_map l₁ _)
    injection h₂ with hhead _
    rw [halnum] at hhead
    simp at hhead
    exact hslash hhead.symm
  · intro result sectionId level structural semantic sec p c hfind hcan htype hid hc
      halnum hslash hmods
    obtain ⟨l₁, l₂, hdecomp⟩ := List.append_of_mem hc
    have hmem : ('/' : Char) ∈ (modulePathOfSectionId sec.id).toList := by
      rw [hid, roundTrip_eq_map]
      show ('/' : Char) ∈ p.toList.map (fun ch => if ch.isAlphanum then ch else '/')
      rw [hdecomp, List.map_append, List.map_cons]
      refine List.mem_append_right _ ?_
      simp [halnum]
    have hnone : structural.find?
        (fun s => s.modulePath = modulePathOfSectionId sec.id) = none := by
      refine List.find?_eq_none.mpr ?_
      intro r hr
      simp only [decide_eq_true_eq]
      intro hreq
      exact hmods r hr (hreq ▸ hmem)
    simp only [expandSection, hfind, hcan, htype, hnone]
    simp

/-- Claim C10 witness: the round trip at concrete paths (`src/core`
survives, `my_mod` does not), and `expandSection` on the section of a
module named `my_mod` with a structural report present for it: the
reconstructed path `my/mod` matches no report, so the section comes
back unchanged. -/
theorem moduleId_roundTrip_witness :
    modulePathOfSectionId ("module_" ++ sanitizeSectionPath "src/core") = "src/core" ∧
    modulePathOfSectionId ("module_" ++ sanitizeSectionPath "my_mod") ≠ "my_mod" ∧
    expandSection
      ⟨"aw", "/repo", .standard, rmapEmpty, ⟨"unknown", [], [], "low"⟩,
        [⟨"module_my_mod", "Module: my_mod", "module",
          "unknown module with 1 files in Go", true, none, none⟩], none, none⟩
      "module_my_mod" "detail" [⟨"my_mod", [], [], [], ⟨1, 0, 0, 0⟩⟩] none =
      some ⟨"module_my_mod", "Module: my_mod", "module",
        "unknown module with 1 files in Go", true, none, none⟩ :=
  ⟨moduleId_roundTrip.1 "src/core" (by decide),
   moduleId_roundTrip.2.1 "my_mod" '_' (by decide) (by decide) (by decide),
   moduleId_roundTrip.2.2
     ⟨"aw", "/repo", .standard, rmapEmpty, ⟨"unknown", [], [], "low"⟩,
       [⟨"module_my_mod", "Module: my_mod", "module",
         "unknown module with 1 files in Go", true, none, none⟩], none, none⟩
     "module_my_mod" "detail" [⟨"my_mod", [], [], [], ⟨1, 0, 0, 0⟩⟩] none
     ⟨"module_my_mod", "Module: my_mod", "module",
       "unknown module with 1 files in Go", true, none, none⟩
     "my_mod" '_'
     (by decide) rfl rfl (by decide) (by decide) (by decide) (by decide) (by decide)⟩
